import Mathlib

/-!
# First layer calibration (`Firmware/first_lay_cal.cpp`)

A shallow embedding of the first layer calibration: `count_e`, the file-level
geometry constants, the pattern generators `lay1cal_meander` and
`lay1cal_square`, and the fixed command lists `lay1cal_load_filament` and
`lay1cal_intro_line`.

Conventions of the embedding.

* The C `float` values are idealised as exact rationals (`ℚ`): in `count_e` and
  the geometry constants every operation is the exact arithmetic one.  Where a
  property depends on the rounding itself, `count_e_binary32` evaluates the
  same expression in IEEE binary32, the arithmetic of the AVR target.
* `Num.val` and `target` read the argument handed to a conversion; `Num.shown`
  and `shownTarget` read the number that the printed text denotes, rounded to
  the precision of the conversion.
* `X_MAX_POS` and `Y_MAX_POS` come from `Configuration_prusa.h`; they are
  parameters of every definition that depends on them.
* A command is kept as the list of its G-code words.  A word records its letter
  and how its number reaches the text: written in the format string, or
  produced by a `%f` / `%d` conversion from an argument.
* `cmd_buffer` and the command queue are explicit state (`State`); for the
  fixed command lists, whose text the source determines completely, the state
  holds the text itself (`TextState`).
-/

namespace FirstLayCal

/-! ## Command text -/

/-- Numeric field of a G-code word, as the format string produces it. -/
inductive Num where
  /-- Digits written in the format string itself: `lit 150 3` is the text
  `0.150`, `lit 45 0` is `45`, `lit 25 1` is `2.5`. -/
  | lit (digits : Int) (decimals : Nat)
  /-- Conversion `%-<width>.<prec>f` of a float argument; a bare `.` is
  precision 0, so `%-2.f` is `f (some 2) 0` and `%-.2f` is `f none 2`. -/
  | f (width : Option Nat) (prec : Nat) (arg : ℚ)
  /-- Conversion `%d` of an integer argument. -/
  | d (arg : Int)
  deriving DecidableEq

/-- The number a field stands for: the literal, or the argument handed to the
conversion (before it is rendered with the conversion's precision). -/
def Num.val : Num → ℚ
  | .lit digits decimals => (digits : ℚ) / (10 : ℚ) ^ decimals
  | .f _ _ arg => arg
  | .d arg => (arg : ℚ)

/-- Digits after the decimal point in the rendered text of a field. -/
def Num.decimals : Num → Nat
  | .lit _ decimals => decimals
  | .f _ prec _ => prec
  | .d _ => 0

/-- A field with its argument erased: what the format string alone fixes. -/
inductive Conv where
  | lit (digits : Int) (decimals : Nat)
  | f (width : Option Nat) (prec : Nat)
  | d
  deriving DecidableEq

/-- The conversion that produced a field. -/
def Num.conv : Num → Conv
  | .lit digits decimals => .lit digits decimals
  | .f width prec _ => .f width prec
  | .d _ => .d

/-- One G-code word: a letter followed by a number. -/
structure Word where
  letter : Char
  num : Num
  deriving DecidableEq

/-- A command line: its words in textual order, separated by blanks. -/
abbrev Cmd := List Word

/-- Value of the first word of the command with the given letter, if any. -/
def Cmd.arg (c : Cmd) (letter : Char) : Option ℚ :=
  (c.find? (fun w => w.letter == letter)).map (fun w => w.num.val)

/-- Field of the first word of the command with the given letter, if any. -/
def Cmd.field (c : Cmd) (letter : Char) : Option Num :=
  (c.find? (fun w => w.letter == letter)).map (fun w => w.num)

/-- The format string of a command: letters and conversions, arguments erased. -/
def Cmd.shape (c : Cmd) : List (Char × Conv) :=
  c.map (fun w => (w.letter, w.num.conv))

/-! ## Buffer and queue -/

/-- The caller's format buffer and the commands handed to the queue so far. -/
structure State where
  cmd_buffer : Cmd
  queue : List Cmd

/-- Models `sprintf_P(cmd_buffer, fmt, args...)`: the buffer is overwritten. -/
def sprintf_P (formatted : Cmd) (s : State) : State :=
  ⟨formatted, s.queue⟩

/-- Models `enquecommand(cmd_buffer)`: a copy of the buffer joins the queue. -/
def enquecommand (s : State) : State :=
  ⟨s.cmd_buffer, s.queue ++ [s.cmd_buffer]⟩

/-! ## Extrusion model -/

/-- The C library constant `M_PI`; `math.h` (avr-libc) writes it as
`#define M_PI 3.14159265358979323846`, and this is that decimal. -/
def M_PI : ℚ := 3.14159265358979323846

/-- Source: `count_e`, filament length needed to form a line, in exact
arithmetic (`count_e_binary32` is the same expression with binary32 rounding). -/
def count_e (layer_height extrusion_width extrusion_length : ℚ) : ℚ :=
  extrusion_length * layer_height * extrusion_width / (M_PI * (1.75 : ℚ) ^ 2 / 4)

/-- Source: `width`, line width. -/
def width : ℚ := 0.4

/-- Source: `length`, line length. -/
def length : ℚ := 20 - width

/-- Source: `height`, layer height. -/
def height : ℚ := 0.2

/-- Source: `extr`, E axis movement needed to print the line. -/
def extr : ℚ := count_e height width length

/-! ## Meander geometry -/

/-- Source: `endX`. -/
def endX (X_MAX_POS : ℚ) : ℚ := X_MAX_POS - 20

/-- Source: `startY`. -/
def startY (Y_MAX_POS : ℚ) : ℚ := Y_MAX_POS - 20

/-- Source: `startX`. -/
def startX : ℚ := 20

/-- Source: `lengthCSy`. -/
def lengthCSy (Y_MAX_POS : ℚ) : ℚ := ((startY Y_MAX_POS - 55) / 5) - width

/-- Source: `lengthCSx`. -/
def lengthCSx (X_MAX_POS : ℚ) : ℚ := (endX X_MAX_POS - startX) - width

/-- Source: `lengthCSx_short`. -/
def lengthCSx_short (X_MAX_POS : ℚ) : ℚ := lengthCSx X_MAX_POS - 50

/-- Source: `lengthCSx_short2`. -/
def lengthCSx_short2 (X_MAX_POS : ℚ) : ℚ := lengthCSx X_MAX_POS - 30

/-- Source: `extrX`. -/
def extrX (X_MAX_POS : ℚ) : ℚ := count_e height width (lengthCSx X_MAX_POS)

/-- Source: `extrY`. -/
def extrY (Y_MAX_POS : ℚ) : ℚ := count_e height width (lengthCSy Y_MAX_POS)

/-- Source: `extrX_short`. -/
def extrX_short (X_MAX_POS : ℚ) : ℚ := count_e height width (lengthCSx_short X_MAX_POS)

/-- Source: `extrX_short2`. -/
def extrX_short2 (X_MAX_POS : ℚ) : ℚ := count_e height width (lengthCSx_short2 X_MAX_POS)

/-- Source: `posY1`. -/
def posY1 (Y_MAX_POS : ℚ) : ℚ := startY Y_MAX_POS - lengthCSy Y_MAX_POS

/-- Source: `posY2`. -/
def posY2 (Y_MAX_POS : ℚ) : ℚ := posY1 Y_MAX_POS - lengthCSy Y_MAX_POS

/-- Source: `posY3`. -/
def posY3 (Y_MAX_POS : ℚ) : ℚ := posY2 Y_MAX_POS - lengthCSy Y_MAX_POS

/-- Source: `posY4`. -/
def posY4 (Y_MAX_POS : ℚ) : ℚ := posY3 Y_MAX_POS - lengthCSy Y_MAX_POS

/-- Source: `posY5`. -/
def posY5 (Y_MAX_POS : ℚ) : ℚ := posY4 Y_MAX_POS - lengthCSy Y_MAX_POS

/-! ## Format strings -/

/-- The word `G1` that opens every command of the two patterns. -/
def G1 : Word := ⟨'G', .lit 1 0⟩

/-- Format `"G1 X%-2.f Y%-.2f E%-.3f"`. -/
def fmtXYE (x y e : ℚ) : Cmd :=
  [G1, ⟨'X', .f (some 2) 0 x⟩, ⟨'Y', .f none 2 y⟩, ⟨'E', .f none 3 e⟩]

/-- Source: `fmt1` of `lay1cal_square`, `"G1 X%d Y%-.2f E%-.3f"`. -/
def fmt1 (x : Int) (y e : ℚ) : Cmd :=
  [G1, ⟨'X', .d x⟩, ⟨'Y', .f none 2 y⟩, ⟨'E', .f none 3 e⟩]

/-- Source: `fmt2` of `lay1cal_square`, `"G1 Y%-.2f E%-.3f"`. -/
def fmt2 (y e : ℚ) : Cmd :=
  [G1, ⟨'Y', .f none 2 y⟩, ⟨'E', .f none 3 e⟩]

/-! ## Pattern generators -/

/-- Source: `lay1cal_meander`, with the bed bounds as parameters. -/
def lay1cal_meander (X_MAX_POS Y_MAX_POS : ℚ) (s : State) : State :=
  s
  |> sprintf_P [G1, ⟨'X', .f (some 2) 0 startX⟩, ⟨'Y', .f none 2 (startY Y_MAX_POS)⟩]
  |> enquecommand
  |> sprintf_P [G1, ⟨'Z', .lit 150 3⟩, ⟨'F', .lit 7200000 3⟩]
  |> enquecommand
  |> sprintf_P [G1, ⟨'F', .lit 1080 0⟩]
  |> enquecommand
  |> sprintf_P [G1, ⟨'X', .lit 45 0⟩, ⟨'Y', .f (some 2) 0 (startY Y_MAX_POS)⟩, ⟨'E', .lit 25 1⟩]
  |> enquecommand
  |> sprintf_P [G1, ⟨'X', .lit 70 0⟩, ⟨'Y', .f (some 2) 0 (startY Y_MAX_POS)⟩, ⟨'E', .lit 25 1⟩]
  |> enquecommand
  |> sprintf_P (fmtXYE (endX X_MAX_POS) (startY Y_MAX_POS) (extrX_short X_MAX_POS))
  |> enquecommand
  |> sprintf_P (fmtXYE (endX X_MAX_POS) (posY1 Y_MAX_POS) (extrY Y_MAX_POS))
  |> enquecommand
  |> sprintf_P (fmtXYE startX (posY1 Y_MAX_POS) (extrX X_MAX_POS))
  |> enquecommand
  |> sprintf_P (fmtXYE startX (posY2 Y_MAX_POS) (extrY Y_MAX_POS))
  |> enquecommand
  |> sprintf_P (fmtXYE (endX X_MAX_POS) (posY2 Y_MAX_POS) (extrX X_MAX_POS))
  |> enquecommand
  |> sprintf_P (fmtXYE (endX X_MAX_POS) (posY3 Y_MAX_POS) (extrY Y_MAX_POS))
  |> enquecommand
  |> sprintf_P (fmtXYE startX (posY3 Y_MAX_POS) (extrX X_MAX_POS))
  |> enquecommand
  |> sprintf_P (fmtXYE startX (posY4 Y_MAX_POS) (extrY Y_MAX_POS))
  |> enquecommand
  |> sprintf_P (fmtXYE (endX X_MAX_POS) (posY4 Y_MAX_POS) (extrX X_MAX_POS))
  |> enquecommand
  |> sprintf_P (fmtXYE (endX X_MAX_POS) (posY5 Y_MAX_POS) (extrY Y_MAX_POS))
  |> enquecommand
  |> sprintf_P [G1, ⟨'X', .lit 50 0⟩, ⟨'Y', .f none 2 (posY5 Y_MAX_POS)⟩,
      ⟨'E', .f none 3 (extrX_short2 X_MAX_POS)⟩]
  |> enquecommand
  |> sprintf_P [G1, ⟨'X', .lit 50 0⟩, ⟨'Y', .lit 35 0⟩, ⟨'E', .f none 3 extr⟩]
  |> enquecommand

/-- Source: `lay1cal_square`; `i` is the `uint8_t` iteration index. -/
def lay1cal_square (i : Nat) (s : State) : State :=
  let extr_short_segment : ℚ := count_e height width width
  s
  |> sprintf_P (fmt1 70 (35 - (i : ℚ) * width * 2) extr)
  |> enquecommand
  |> sprintf_P (fmt2 (35 - ((2 * i + 1 : Nat) : ℚ) * width) extr_short_segment)
  |> enquecommand
  |> sprintf_P (fmt1 50 (35 - ((2 * i + 1 : Nat) : ℚ) * width) extr)
  |> enquecommand
  |> sprintf_P (fmt2 (35 - ((i + 1 : Nat) : ℚ) * width * 2) extr_short_segment)
  |> enquecommand

/-- The caller's loop: `lay1cal_square` for `i = 0, 1, ..., n - 1` in order. -/
def squareRun (n : Nat) (s : State) : State :=
  (List.range n).foldl (fun st i => lay1cal_square i st) s

/-- The empty buffer and empty queue. -/
def State.init : State := ⟨[], []⟩

/-- Commands `lay1cal_meander` puts on an empty queue. -/
def meanderCmds (X_MAX_POS Y_MAX_POS : ℚ) : List Cmd :=
  (lay1cal_meander X_MAX_POS Y_MAX_POS State.init).queue

/-- Commands one call `lay1cal_square i` puts on an empty queue. -/
def squareCmds (i : Nat) : List Cmd :=
  (lay1cal_square i State.init).queue

/-! ## Reading a command sequence as a tool path -/

/-- Position after a command, read from the arguments of its X and Y words
before they are rendered (`shownTarget` reads the rendered text): a word
replaces a coordinate, an axis that is not named keeps its value. -/
def target (p : ℚ × ℚ) (c : Cmd) : ℚ × ℚ :=
  ((c.arg 'X').getD p.1, (c.arg 'Y').getD p.2)

/-- Length of the segment a command traces from position `p`; every move of the
patterns is parallel to an axis, so the two absolute displacements add up to it. -/
def traced (p : ℚ × ℚ) (c : Cmd) : ℚ :=
  |(target p c).1 - p.1| + |(target p c).2 - p.2|

/-- For each command in turn: the length of the segment it traces from the
target of the command before it (from `p` for the first), and its E word. -/
def moves : ℚ × ℚ → List Cmd → List (ℚ × Option ℚ)
  | _, [] => []
  | p, c :: cs => (traced p c, c.arg 'E') :: moves (target p c) cs

/-- Positions reached after each command in turn, starting from `p`. -/
def positions : ℚ × ℚ → List Cmd → List (ℚ × ℚ)
  | _, [] => []
  | p, c :: cs => target p c :: positions (target p c) cs

/-- A move from `p` to `q` that changes exactly one of the two coordinates. -/
def oneAxis (p q : ℚ × ℚ) : Prop :=
  (q.1 ≠ p.1 ∧ q.2 = p.2) ∨ (q.1 = p.1 ∧ q.2 ≠ p.2)

/-- A field produced by a `%f` conversion of a computed float. -/
def Num.isFloatConv : Num → Bool
  | .f _ _ _ => true
  | _ => false

/-! ## Fixed command lists

The emitters below enqueue text that the source fixes completely (string
constants, and `T%d` of an integer), so they are modelled on the text itself. -/

/-- The format buffer and the queue, both as text. -/
structure TextState where
  cmd_buffer : String
  queue : List String

/-- Models `enquecommand_P(text)`: a constant string joins the queue. -/
def TextState.enquecommand_P (text : String) (s : TextState) : TextState :=
  ⟨s.cmd_buffer, s.queue ++ [text]⟩

/-- Models `sprintf_P(cmd_buffer, PSTR("T%d"), filament)`: the buffer becomes
`T` followed by the decimal digits of `filament`. -/
def TextState.sprintf_P_T (filament : Nat) (s : TextState) : TextState :=
  ⟨"T" ++ toString filament, s.queue⟩

/-- Models `enquecommand(cmd_buffer)` on text. -/
def TextState.enquecommand (s : TextState) : TextState :=
  ⟨s.cmd_buffer, s.queue ++ [s.cmd_buffer]⟩

/-- Source: `lay1cal_load_filament`; `mmu_enabled` is the global flag,
`filament` the `uint8_t` argument. -/
def lay1cal_load_filament (mmu_enabled : Bool) (filament : Nat) (s : TextState) : TextState :=
  if mmu_enabled then
    s
    |> TextState.enquecommand_P "M83"
    |> TextState.enquecommand_P "G1 Y-3.0 F1000.0"
    |> TextState.enquecommand_P "G1 Z0.4 F1000.0"
    |> TextState.sprintf_P_T filament
    |> TextState.enquecommand
  else
    s

/-- Source: `intro_mmu_cmd`, the table of `cmd_intro_mmu_3` .. `cmd_intro_mmu_12`. -/
def intro_mmu_cmd : List String :=
  ["G1 X55.0 E32.0 F1073.0",
   "G1 X5.0 E32.0 F1800.0",
   "G1 X55.0 E8.0 F2000.0",
   "G1 Z0.3 F1000.0",
   "G92 E0.0",
   "G1 X240.0 E25.0  F2200.0",
   "G1 Y-2.0 F1000.0",
   "G1 X55.0 E25 F1400.0",
   "G1 Z0.20 F1000.0",
   "G1 X5.0 E4.0 F1000.0"]

/-- Source: `lay1cal_intro_line`; the loop over the table is a fold. -/
def lay1cal_intro_line (mmu_enabled : Bool) (s : TextState) : TextState :=
  if mmu_enabled then
    intro_mmu_cmd.foldl (fun st text => TextState.enquecommand_P text st) s
  else
    s
    |> TextState.enquecommand_P "G1 X60.0 E9.0 F1000.0"
    |> TextState.enquecommand_P "G1 X100.0 E12.5 F1000.0"

/-! ## The emitted text as a tool path

`target` above reads the argument handed to a conversion.  The text the queue
receives carries that argument rounded to the precision of the conversion, and
the definitions below read the rounded number. -/

/-- The number the rendered text of a field denotes: a `%f` conversion prints
its argument rounded to `prec` decimal places (a tie away from zero), a literal
and a `%d` stand for themselves. -/
def Num.shown : Num → ℚ
  | .lit digits decimals => (digits : ℚ) / (10 : ℚ) ^ decimals
  | .f _ prec arg => (round (arg * (10 : ℚ) ^ prec) : ℚ) / (10 : ℚ) ^ prec
  | .d arg => (arg : ℚ)

/-- Rendered value of the first word of the command with the given letter. -/
def Cmd.shownArg (c : Cmd) (letter : Char) : Option ℚ :=
  (c.find? (fun w => w.letter == letter)).map (fun w => w.num.shown)

/-- Position after a command, read from its text. -/
def shownTarget (p : ℚ × ℚ) (c : Cmd) : ℚ × ℚ :=
  ((c.shownArg 'X').getD p.1, (c.shownArg 'Y').getD p.2)

/-- Positions reached after each command in turn, read from the text. -/
def shownPositions : ℚ × ℚ → List Cmd → List (ℚ × ℚ)
  | _, [] => []
  | p, c :: cs => shownTarget p c :: shownPositions (shownTarget p c) cs

/-- For each command in turn: the length of the segment its text traces from
the target of the command before it, and its E word. -/
def shownMoves : ℚ × ℚ → List Cmd → List (ℚ × Option ℚ)
  | _, [] => []
  | p, c :: cs =>
    (|(shownTarget p c).1 - p.1| + |(shownTarget p c).2 - p.2|, c.shownArg 'E')
      :: shownMoves (shownTarget p c) cs

/-! ## Binary32 evaluation of `count_e`

On the AVR target `float` and `double` are both IEEE binary32, so every
operation of `count_e` rounds its exact result to the nearest binary32 value. -/

/-- Nearest integer, a tie going to the even one. -/
def roundHalfEven (m : ℚ) : ℤ :=
  if Int.fract m < 1 / 2 then ⌊m⌋
  else if 1 / 2 < Int.fract m then ⌊m⌋ + 1
  else if ⌊m⌋ % 2 = 0 then ⌊m⌋
  else ⌊m⌋ + 1

/-- Exponent of the unit in the last place of binary32 at `x`: 24 significant
bits, and the fixed exponent -149 below the smallest normal number `2 ^ -126`. -/
def ulpExp (x : ℚ) : ℤ := max (Int.log 2 |x|) (-126) - 23

/-- Nearest binary32 value, ties to even; the exponent is not bounded above, so
overflow to infinity is outside this model. -/
def round32 (x : ℚ) : ℚ := roundHalfEven (x / 2 ^ ulpExp x) * 2 ^ ulpExp x

/-- Source: `count_e` as binary32 arithmetic evaluates it: the products from
left to right, the cross-section `M_PI * pow(1.75, 2) / 4`, then the quotient,
each operation rounded. -/
def count_e_binary32 (layer_height extrusion_width extrusion_length : ℚ) : ℚ :=
  round32 (round32 (round32 (extrusion_length * layer_height) * extrusion_width) /
    round32 (round32 (round32 M_PI * round32 ((1.75 : ℚ) ^ 2)) / 4))

/-! ## Extrusion model: lemmas -/

/-- The denominator of `count_e`, the filament cross-section, is positive. -/
lemma filament_area_pos : (0 : ℚ) < M_PI * (1.75 : ℚ) ^ 2 / 4 := by
  unfold M_PI
  norm_num

/-- Closed form of `count_e`: a positive constant times the bead volume. -/
lemma count_e_eq_mul (h w L : ℚ) :
    count_e h w L = L * h * w * (M_PI * (1.75 : ℚ) ^ 2 / 4)⁻¹ := by
  unfold count_e
  rw [div_eq_mul_inv]

/-- Between two lengths, `count_e` at fixed positive height and width keeps the order. -/
lemma count_e_lt_iff_length (h w L L' : ℚ) (hh : 0 < h) (hw : 0 < w) :
    count_e h w L < count_e h w L' ↔ L < L' := by
  have hc : (0 : ℚ) < (M_PI * (1.75 : ℚ) ^ 2 / 4)⁻¹ := inv_pos.mpr filament_area_pos
  have hhw : 0 < h * w := mul_pos hh hw
  rw [count_e_eq_mul, count_e_eq_mul, mul_lt_mul_right hc, mul_assoc, mul_assoc,
    mul_lt_mul_right hhw]

/-- C1. For all layer heights, widths and lengths `count_e h w L` is the bead
volume `L * h * w` divided by the cross-section `pi * (1.75/2)^2` of 1.75 mm
filament (with the source's constant `M_PI` for pi), and `count_e 0.2 0.4 19.6`
lies within `1e-4` of `19.6 * 0.2 * 0.4 / (π * 0.875^2)` for the real number π. -/
theorem count_e_formula :
    (∀ h w L : ℚ, count_e h w L = L * h * w / (M_PI * (1.75 / 2) ^ 2)) ∧
    |((count_e 0.2 0.4 19.6 : ℚ) : ℝ) - 19.6 * 0.2 * 0.4 / (Real.pi * 0.875 ^ 2)|
      < 1 / 10000 := by
  refine ⟨fun h w L => ?_, ?_⟩
  · unfold count_e
    congr 1
    ring
  · have h1 := Real.pi_gt_d20
    have h2 := Real.pi_lt_d20
    have hpi : 0 < Real.pi := Real.pi_pos
    have hM : (0 : ℝ) < 3.14159265358979323846 := by norm_num
    have e1 : ((count_e 0.2 0.4 19.6 : ℚ) : ℝ) = 2.048 / 3.14159265358979323846 := by
      unfold count_e M_PI
      norm_num
    have e2 : (19.6 : ℝ) * 0.2 * 0.4 / (Real.pi * 0.875 ^ 2) = 2.048 / Real.pi := by
      field_simp
      ring
    rw [e1, e2, div_sub_div _ _ hM.ne' hpi.ne', abs_lt]
    constructor
    · have hnum : (0 : ℝ) < 2.048 * Real.pi - 3.14159265358979323846 * 2.048 := by linarith
      have := div_pos hnum (mul_pos hM hpi)
      linarith
    · rw [div_lt_iff₀ (mul_pos hM hpi)]
      nlinarith

/-- In exact arithmetic, with all three arguments positive, raising any one
argument of `count_e` to a strictly larger value, the other two held fixed,
strictly raises the result. -/
lemma count_e_exact_strictly_increasing (h w L h' w' L' : ℚ)
    (hh : 0 < h) (hw : 0 < w) (hL : 0 < L) :
    (h < h' → count_e h w L < count_e h' w L) ∧
    (w < w' → count_e h w L < count_e h w' L) ∧
    (L < L' → count_e h w L < count_e h w L') := by
  have hc : (0 : ℚ) < (M_PI * (1.75 : ℚ) ^ 2 / 4)⁻¹ := inv_pos.mpr filament_area_pos
  refine ⟨fun hlt => ?_, fun hlt => ?_, fun hlt => ?_⟩
  · rw [count_e_eq_mul, count_e_eq_mul, mul_lt_mul_right hc]
    have := mul_lt_mul_of_pos_left hlt hL
    nlinarith
  · rw [count_e_eq_mul, count_e_eq_mul, mul_lt_mul_right hc]
    have := mul_lt_mul_of_pos_left hlt (mul_pos hL hh)
    linarith
  · exact (count_e_lt_iff_length h w L L' hh hw).mpr hlt

/-! ## Binary32 evaluation: rounding keeps the order -/

lemma floor_le_roundHalfEven (m : ℚ) : ⌊m⌋ ≤ roundHalfEven m := by
  unfold roundHalfEven
  split_ifs <;> omega

/-- Rounding to nearest never goes above the floor plus one. -/
lemma roundHalfEven_le_floor_succ (m : ℚ) : roundHalfEven m ≤ ⌊m⌋ + 1 := by
  unfold roundHalfEven
  split_ifs <;> omega

/-- Rounding to nearest does not cross an integer below. -/
lemma le_roundHalfEven {m : ℚ} {k : ℤ} (h : (k : ℚ) ≤ m) : k ≤ roundHalfEven m :=
  le_trans (Int.le_floor.mpr h) (floor_le_roundHalfEven m)

/-- Rounding to nearest does not cross an integer above. -/
lemma roundHalfEven_le {m : ℚ} {k : ℤ} (h : m ≤ (k : ℚ)) : roundHalfEven m ≤ k := by
  by_cases hf : Int.fract m < 1 / 2
  · have : roundHalfEven m = ⌊m⌋ := by
      unfold roundHalfEven
      rw [if_pos hf]
    rw [this]
    exact_mod_cast (Int.floor_le m).trans h
  · have hne : m ≠ (k : ℚ) := by
      intro hmk
      apply hf
      rw [hmk, Int.fract_intCast]
      norm_num
    have hlt : m < (k : ℚ) := lt_of_le_of_ne h hne
    have : ⌊m⌋ < k := Int.floor_lt.mpr hlt
    have := roundHalfEven_le_floor_succ m
    omega

/-- Rounding to nearest keeps the order. -/
lemma roundHalfEven_mono {m m' : ℚ} (h : m ≤ m') : roundHalfEven m ≤ roundHalfEven m' := by
  have hfl : ⌊m⌋ ≤ ⌊m'⌋ := Int.floor_mono h
  rcases lt_or_eq_of_le hfl with hlt | heq
  · have h1 := roundHalfEven_le_floor_succ m
    have h2 := floor_le_roundHalfEven m'
    omega
  · have hfr : Int.fract m ≤ Int.fract m' := by
      unfold Int.fract
      rw [heq]
      linarith
    unfold roundHalfEven
    rw [heq]
    split_ifs <;> first | omega | linarith

/-- The integer less than a half away is the rounded value. -/
lemma roundHalfEven_eq_of_abs_lt {m : ℚ} {n : ℤ} (h : |m - n| < 1 / 2) : roundHalfEven m = n := by
  rw [abs_lt] at h
  obtain ⟨h1, h2⟩ := h
  by_cases hge : (n : ℚ) ≤ m
  · have hfl : ⌊m⌋ = n := Int.floor_eq_iff.mpr ⟨hge, by linarith⟩
    have hfr : Int.fract m < 1 / 2 := by
      unfold Int.fract
      rw [hfl]
      linarith
    unfold roundHalfEven
    rw [if_pos hfr, hfl]
  · push_neg at hge
    have hfl : ⌊m⌋ = n - 1 := Int.floor_eq_iff.mpr ⟨by push_cast; linarith, by push_cast; linarith⟩
    have hfr : 1 / 2 < Int.fract m := by
      unfold Int.fract
      rw [hfl]
      push_cast
      linarith
    have hfr' : ¬ Int.fract m < 1 / 2 := not_lt.mpr hfr.le
    unfold roundHalfEven
    rw [if_neg hfr', if_pos hfr, hfl]
    ring

/-- Powers of two are positive. -/
lemma two_zpow_pos (e : ℤ) : (0 : ℚ) < 2 ^ e := zpow_pos (by norm_num) e

/-- Twenty-four bits above the unit in the last place is the next binade. -/
lemma two_pow24_mul (a : ℤ) : (16777216 : ℚ) * 2 ^ (a - 23) = 2 ^ (a + 1) := by
  rw [show a + 1 = 24 + (a - 23) by ring, zpow_add₀ (by norm_num : (2 : ℚ) ≠ 0)]
  norm_num

/-- Twenty-three bits above the unit in the last place is the binade itself. -/
lemma two_pow23_mul (b : ℤ) : (8388608 : ℚ) * 2 ^ (b - 23) = 2 ^ b := by
  nth_rewrite 2 [show b = 23 + (b - 23) by ring]
  rw [zpow_add₀ (by norm_num : (2 : ℚ) ≠ 0)]
  norm_num

/-- A non-negative number rounds to a non-negative binary32 number. -/
lemma round32_nonneg {x : ℚ} (hx : 0 ≤ x) : 0 ≤ round32 x := by
  unfold round32
  have hm : ((0 : ℤ) : ℚ) ≤ x / 2 ^ ulpExp x := by
    simpa using div_nonneg hx (two_zpow_pos _).le
  have := le_roundHalfEven hm
  exact mul_nonneg (by exact_mod_cast this) (two_zpow_pos _).le

/-- Zero is a binary32 number. -/
lemma round32_zero : round32 0 = 0 := by
  simp [round32, roundHalfEven]

/-- The unit in the last place grows with the number. -/
lemma ulpExp_mono {x y : ℚ} (hx : 0 < x) (h : x ≤ y) : ulpExp x ≤ ulpExp y := by
  unfold ulpExp
  rw [abs_of_pos hx, abs_of_pos (lt_of_lt_of_le hx h)]
  have := Int.log_mono_right (b := 2) hx h
  omega

/-- Rounding to binary32 keeps the order of non-negative numbers. -/
lemma round32_mono {x y : ℚ} (hx : 0 ≤ x) (h : x ≤ y) : round32 x ≤ round32 y := by
  rcases eq_or_lt_of_le hx with h0 | hpos
  · rw [← h0, round32_zero]
    exact round32_nonneg (hx.trans h)
  have hy : 0 < y := lt_of_lt_of_le hpos h
  rcases lt_or_eq_of_le (ulpExp_mono hpos h) with hlt | heq
  · -- different binades: a power of two separates the results
    set a := max (Int.log 2 |x|) (-126) with ha
    set b := max (Int.log 2 |y|) (-126) with hb
    have hEx : ulpExp x = a - 23 := rfl
    have hEy : ulpExp y = b - 23 := rfl
    have hab : a + 1 ≤ b := by
      rw [hEx, hEy] at hlt
      omega
    have hblog : b = Int.log 2 y := by
      rw [hb, abs_of_pos hy]
      have h126 : (-126 : ℤ) ≤ a := le_max_right _ _
      have : (-126 : ℤ) < max (Int.log 2 y) (-126) := by
        rw [hb, abs_of_pos hy] at hab
        omega
      rcases le_total (Int.log 2 y) (-126) with hle | hle
      · rw [max_eq_right hle] at this
        omega
      · exact max_eq_left hle
    have hxa : x < 2 ^ (a + 1) := by
      have h1 : x < (2 : ℚ) ^ (Int.log 2 x + 1) := by
        exact_mod_cast Int.lt_zpow_succ_log_self (b := 2) (by norm_num) x
      have h2 : Int.log 2 x + 1 ≤ a + 1 := by
        have : Int.log 2 x ≤ a := by
          rw [ha, abs_of_pos hpos]
          exact le_max_left _ _
        omega
      exact lt_of_lt_of_le h1 (zpow_le_zpow_right₀ (by norm_num) h2)
    have hyb : (2 : ℚ) ^ b ≤ y := by
      rw [hblog]
      exact_mod_cast Int.zpow_log_le_self (b := 2) (by norm_num) hy
    have hrx : round32 x ≤ 2 ^ (a + 1) := by
      unfold round32
      rw [hEx]
      have hm : x / 2 ^ (a - 23) ≤ ((16777216 : ℤ) : ℚ) := by
        rw [div_le_iff₀ (two_zpow_pos _)]
        push_cast
        rw [two_pow24_mul]
        exact hxa.le
      have hr' : (roundHalfEven (x / 2 ^ (a - 23)) : ℚ) ≤ ((16777216 : ℤ) : ℚ) := by
        exact_mod_cast roundHalfEven_le hm
      calc (roundHalfEven (x / 2 ^ (a - 23)) : ℚ) * 2 ^ (a - 23)
          ≤ ((16777216 : ℤ) : ℚ) * 2 ^ (a - 23) :=
            mul_le_mul_of_nonneg_right hr' (two_zpow_pos _).le
        _ = 2 ^ (a + 1) := by
          push_cast
          exact two_pow24_mul a
    have hry : (2 : ℚ) ^ b ≤ round32 y := by
      unfold round32
      rw [hEy]
      have hm : ((8388608 : ℤ) : ℚ) ≤ y / 2 ^ (b - 23) := by
        rw [le_div_iff₀ (two_zpow_pos _)]
        push_cast
        rw [two_pow23_mul]
        exact hyb
      have hr' : ((8388608 : ℤ) : ℚ) ≤ (roundHalfEven (y / 2 ^ (b - 23)) : ℚ) := by
        exact_mod_cast le_roundHalfEven hm
      calc (2 : ℚ) ^ b = ((8388608 : ℤ) : ℚ) * 2 ^ (b - 23) := by
            push_cast
            exact (two_pow23_mul b).symm
        _ ≤ (roundHalfEven (y / 2 ^ (b - 23)) : ℚ) * 2 ^ (b - 23) :=
            mul_le_mul_of_nonneg_right hr' (two_zpow_pos _).le
    calc round32 x ≤ 2 ^ (a + 1) := hrx
      _ ≤ 2 ^ b := zpow_le_zpow_right₀ (by norm_num) hab
      _ ≤ round32 y := hry
  · unfold round32
    rw [heq]
    have hm : x / 2 ^ ulpExp y ≤ y / 2 ^ ulpExp y :=
      div_le_div_of_nonneg_right h (two_zpow_pos _).le
    have := roundHalfEven_mono hm
    exact mul_le_mul_of_nonneg_right (by exact_mod_cast this) (two_zpow_pos _).le

/-- Evaluation of `round32` at a normal number: binade `e` and nearest multiple
`n` of the unit in the last place. -/
lemma round32_eq_of_bounds (x : ℚ) (e n : ℤ) (he : -126 ≤ e) (h1 : (2 : ℚ) ^ e ≤ x)
    (h2 : x < (2 : ℚ) ^ (e + 1)) (hn : |x / 2 ^ (e - 23) - n| < 1 / 2) :
    round32 x = n * 2 ^ (e - 23) := by
  have hx : 0 < x := lt_of_lt_of_le (two_zpow_pos e) h1
  have hlog : Int.log 2 x = e := by
    have ha : e ≤ Int.log 2 x :=
      (Int.zpow_le_iff_le_log (b := 2) (by norm_num) hx).mp (by exact_mod_cast h1)
    have hb : Int.log 2 x < e + 1 :=
      (Int.lt_zpow_iff_log_lt (b := 2) (by norm_num) hx).mp (by exact_mod_cast h2)
    omega
  have hE : ulpExp x = e - 23 := by
    unfold ulpExp
    rw [abs_of_pos hx, hlog, max_eq_left he]
  unfold round32
  rw [hE, roundHalfEven_eq_of_abs_lt hn]

/-- Below half of the smallest subnormal, `round32` gives zero (underflow). -/
lemma round32_tiny {x : ℚ} (h0 : 0 ≤ x) (h : x < (2 : ℚ) ^ (-150 : ℤ)) : round32 x = 0 := by
  rcases eq_or_lt_of_le h0 with hz | hx
  · rw [← hz, round32_zero]
  have hlog : Int.log 2 x < -150 :=
    (Int.lt_zpow_iff_log_lt (b := 2) (by norm_num) hx).mp (by exact_mod_cast h)
  have hE : ulpExp x = -149 := by
    unfold ulpExp
    rw [abs_of_pos hx, max_eq_right (by omega)]
    norm_num
  have hm : |x / 2 ^ (-149 : ℤ) - ((0 : ℤ) : ℚ)| < 1 / 2 := by
    have hpos : 0 ≤ x / 2 ^ (-149 : ℤ) := div_nonneg h0 (two_zpow_pos _).le
    have hlt : x / 2 ^ (-149 : ℤ) < 1 / 2 := by
      rw [div_lt_iff₀ (two_zpow_pos _)]
      calc x < (2 : ℚ) ^ (-150 : ℤ) := h
        _ = 1 / 2 * 2 ^ (-149 : ℤ) := by norm_num
    rw [Int.cast_zero, sub_zero, abs_of_nonneg hpos]
    exact hlt
  unfold round32
  rw [hE, roundHalfEven_eq_of_abs_lt hm]
  simp

/-- `M_PI` as a binary32 number. -/
lemma round32_M_PI : round32 (3.14159265358979323846) = 13176795 / 4194304 := by
  have key := round32_eq_of_bounds (3.14159265358979323846) (1) (13176795) (by norm_num) (by norm_num) (by norm_num)
    (by rw [abs_lt]; constructor <;> norm_num)
  rw [key]
  norm_num

/-- `pow(1.75, 2) = 3.0625` is a binary32 number. -/
lemma round32_pow : round32 ((1.75 : ℚ) ^ 2) = 49 / 16 := by
  have key := round32_eq_of_bounds ((1.75 : ℚ) ^ 2) (1) (12845056) (by norm_num) (by norm_num) (by norm_num)
    (by rw [abs_lt]; constructor <;> norm_num)
  rw [key]
  norm_num

/-- The product `M_PI * pow(1.75, 2)` in binary32. -/
lemma round32_area1 : round32 (645662955 / 67108864) = 2522121 / 262144 := by
  have key := round32_eq_of_bounds (645662955 / 67108864) (3) (10088484) (by norm_num) (by norm_num) (by norm_num)
    (by rw [abs_lt]; constructor <;> norm_num)
  rw [key]
  norm_num

/-- A quarter of that product is again a binary32 number. -/
lemma round32_area2 : round32 (2522121 / 1048576) = 2522121 / 1048576 := by
  have key := round32_eq_of_bounds (2522121 / 1048576) (1) (10088484) (by norm_num) (by norm_num) (by norm_num)
    (by rw [abs_lt]; constructor <;> norm_num)
  rw [key]
  norm_num

/-- The layer height `0.2f`. -/
lemma round32_h : round32 (1 / 5) = 13421773 / 67108864 := by
  have key := round32_eq_of_bounds (1 / 5) (-3) (13421773) (by norm_num) (by norm_num) (by norm_num)
    (by rw [abs_lt]; constructor <;> norm_num)
  rw [key]
  norm_num

/-- The line width `0.4f`. -/
lemma round32_w : round32 (2 / 5) = 13421773 / 33554432 := by
  have key := round32_eq_of_bounds (2 / 5) (-2) (13421773) (by norm_num) (by norm_num) (by norm_num)
    (by rw [abs_lt]; constructor <;> norm_num)
  rw [key]
  norm_num

/-- The length `25 + 3 * 2^-19` is a binary32 number. -/
lemma round32_L3 : round32 (13107203 / 524288) = 13107203 / 524288 := by
  have key := round32_eq_of_bounds (13107203 / 524288) (4) (13107203) (by norm_num) (by norm_num) (by norm_num)
    (by rw [abs_lt]; constructor <;> norm_num)
  rw [key]
  norm_num

/-- The product `L * h` for `L = 25 + 3 * 2^-19`, `h = 0.2f`. -/
lemma round32_L3_h : round32 (175921903330919 / 35184372088832) = 10485763 / 2097152 := by
  have key := round32_eq_of_bounds (175921903330919 / 35184372088832) (2) (10485763) (by norm_num) (by norm_num) (by norm_num)
    (by rw [abs_lt]; constructor <;> norm_num)
  rw [key]
  norm_num

/-- The length `25 + 4 * 2^-19`, the next binary32 number. -/
lemma round32_L4 : round32 (3276801 / 131072) = 3276801 / 131072 := by
  have key := round32_eq_of_bounds (3276801 / 131072) (4) (13107204) (by norm_num) (by norm_num) (by norm_num)
    (by rw [abs_lt]; constructor <;> norm_num)
  rw [key]
  norm_num

/-- The product `L * h` for `L = 25 + 4 * 2^-19` rounds to the same number. -/
lemma round32_L4_h : round32 (43980479188173 / 8796093022208) = 10485763 / 2097152 := by
  have key := round32_eq_of_bounds (43980479188173 / 8796093022208) (2) (10485763) (by norm_num) (by norm_num) (by norm_num)
    (by rw [abs_lt]; constructor <;> norm_num)
  rw [key]
  norm_num

/-- The product `L * h * w` for `L = 25 + 3 * 2^-19`, `h = 0.2f`, `w = 0.4f`. -/
lemma round32_L3_hw : round32 (140737530717799 / 70368744177664) = 8388611 / 4194304 := by
  have key := round32_eq_of_bounds (140737530717799 / 70368744177664) (1) (8388611) (by norm_num) (by norm_num) (by norm_num)
    (by rw [abs_lt]; constructor <;> norm_num)
  rw [key]
  norm_num

/-- The quotient by the cross-section for `L = 25 + 3 * 2^-19`. -/
lemma round32_L3_res : round32 (1198373 / 1441212) = 3487579 / 4194304 := by
  have key := round32_eq_of_bounds (1198373 / 1441212) (-1) (13950316) (by norm_num) (by norm_num) (by norm_num)
    (by rw [abs_lt]; constructor <;> norm_num)
  rw [key]
  norm_num

/-- The filament cross-section as binary32 computes it. -/
lemma binary32_area :
    round32 (round32 (round32 M_PI * round32 ((1.75 : ℚ) ^ 2)) / 4) = 2522121 / 1048576 := by
  unfold M_PI
  rw [round32_M_PI, round32_pow]
  norm_num
  rw [round32_area1]
  norm_num
  exact round32_area2

/-- The binary32 `count_e` with its cross-section evaluated. -/
lemma count_e_binary32_eq (h w L : ℚ) :
    count_e_binary32 h w L = round32 (round32 (round32 (L * h) * w) / (2522121 / 1048576)) := by
  unfold count_e_binary32
  rw [binary32_area]

/-- The binary32 `count_e` is non-decreasing in the length. -/
lemma count_e_binary32_mono_length (h w L L' : ℚ) (hh : 0 ≤ h) (hw : 0 ≤ w) (hL : 0 ≤ L)
    (hle : L ≤ L') : count_e_binary32 h w L ≤ count_e_binary32 h w L' := by
  rw [count_e_binary32_eq, count_e_binary32_eq]
  have h1 : round32 (L * h) ≤ round32 (L' * h) :=
    round32_mono (mul_nonneg hL hh) (mul_le_mul_of_nonneg_right hle hh)
  have h1n : 0 ≤ round32 (L * h) := round32_nonneg (mul_nonneg hL hh)
  have h2 : round32 (round32 (L * h) * w) ≤ round32 (round32 (L' * h) * w) :=
    round32_mono (mul_nonneg h1n hw) (mul_le_mul_of_nonneg_right h1 hw)
  have h2n : 0 ≤ round32 (round32 (L * h) * w) := round32_nonneg (mul_nonneg h1n hw)
  have hD : (0 : ℚ) ≤ 2522121 / 1048576 := by norm_num
  exact round32_mono (div_nonneg h2n hD) (div_le_div_of_nonneg_right h2 hD)

/-- The binary32 `count_e` is non-decreasing in the layer height. -/
lemma count_e_binary32_mono_height (h h' w L : ℚ) (hh : 0 ≤ h) (hw : 0 ≤ w) (hL : 0 ≤ L)
    (hle : h ≤ h') : count_e_binary32 h w L ≤ count_e_binary32 h' w L := by
  rw [count_e_binary32_eq, count_e_binary32_eq]
  have h1 : round32 (L * h) ≤ round32 (L * h') :=
    round32_mono (mul_nonneg hL hh) (mul_le_mul_of_nonneg_left hle hL)
  have h1n : 0 ≤ round32 (L * h) := round32_nonneg (mul_nonneg hL hh)
  have h2 : round32 (round32 (L * h) * w) ≤ round32 (round32 (L * h') * w) :=
    round32_mono (mul_nonneg h1n hw) (mul_le_mul_of_nonneg_right h1 hw)
  have h2n : 0 ≤ round32 (round32 (L * h) * w) := round32_nonneg (mul_nonneg h1n hw)
  have hD : (0 : ℚ) ≤ 2522121 / 1048576 := by norm_num
  exact round32_mono (div_nonneg h2n hD) (div_le_div_of_nonneg_right h2 hD)

/-- The binary32 `count_e` is non-decreasing in the width. -/
lemma count_e_binary32_mono_width (h w w' L : ℚ) (hh : 0 ≤ h) (hw : 0 ≤ w) (hL : 0 ≤ L)
    (hle : w ≤ w') : count_e_binary32 h w L ≤ count_e_binary32 h w' L := by
  rw [count_e_binary32_eq, count_e_binary32_eq]
  have h1n : 0 ≤ round32 (L * h) := round32_nonneg (mul_nonneg hL hh)
  have h2 : round32 (round32 (L * h) * w) ≤ round32 (round32 (L * h) * w') :=
    round32_mono (mul_nonneg h1n hw) (mul_le_mul_of_nonneg_left hle h1n)
  have h2n : 0 ≤ round32 (round32 (L * h) * w) := round32_nonneg (mul_nonneg h1n hw)
  have hD : (0 : ℚ) ≤ 2522121 / 1048576 := by norm_num
  exact round32_mono (div_nonneg h2n hD) (div_le_div_of_nonneg_right h2 hD)

/-- C2, as stated, fails in the arithmetic the code runs in.  With `h = 0.2f`,
`w = 0.4f` the adjacent binary32 lengths `25 + 3 * 2^-19` and `25 + 4 * 2^-19`
give the same result `3487579 / 4194304` (about 0.8315036), and with
`h = w = 2^-60` the lengths `2^-60 < 2^-59` both give 0 by underflow. -/
theorem count_e_binary32_not_strict :
    (round32 (1 / 5) = 13421773 / 67108864 ∧ round32 (2 / 5) = 13421773 / 33554432 ∧
      round32 (13107203 / 524288) = 13107203 / 524288 ∧
      round32 (3276801 / 131072) = 3276801 / 131072 ∧
      (13107203 / 524288 : ℚ) < 3276801 / 131072 ∧
      count_e_binary32 (round32 (1 / 5)) (round32 (2 / 5)) (13107203 / 524288) =
        count_e_binary32 (round32 (1 / 5)) (round32 (2 / 5)) (3276801 / 131072) ∧
      count_e_binary32 (round32 (1 / 5)) (round32 (2 / 5)) (13107203 / 524288) =
        3487579 / 4194304) ∧
    (round32 (2 ^ (-60 : ℤ)) = 2 ^ (-60 : ℤ) ∧ round32 (2 ^ (-59 : ℤ)) = 2 ^ (-59 : ℤ) ∧
      count_e_binary32 (2 ^ (-60 : ℤ)) (2 ^ (-60 : ℤ)) (2 ^ (-60 : ℤ)) =
        count_e_binary32 (2 ^ (-60 : ℤ)) (2 ^ (-60 : ℤ)) (2 ^ (-59 : ℤ))) ∧
    ¬ (∀ h w L L' : ℚ, 0 < h → 0 < w → 0 < L → L < L' →
        count_e_binary32 h w L < count_e_binary32 h w L') := by
  have hord : count_e_binary32 (round32 (1 / 5)) (round32 (2 / 5)) (13107203 / 524288) =
      count_e_binary32 (round32 (1 / 5)) (round32 (2 / 5)) (3276801 / 131072) := by
    rw [count_e_binary32_eq, count_e_binary32_eq, round32_h, round32_w]
    norm_num
    rw [round32_L3_h, round32_L4_h]
  have hval : count_e_binary32 (round32 (1 / 5)) (round32 (2 / 5)) (13107203 / 524288) =
      3487579 / 4194304 := by
    rw [count_e_binary32_eq, round32_h, round32_w]
    norm_num
    rw [round32_L3_h]
    norm_num
    rw [round32_L3_hw]
    norm_num
    exact round32_L3_res
  refine ⟨⟨round32_h, round32_w, round32_L3, round32_L4, by norm_num, hord, hval⟩,
    ⟨?_, ?_, ?_⟩, ?_⟩
  · have key := round32_eq_of_bounds (2 ^ (-60 : ℤ)) (-60) 8388608 (by norm_num) (by norm_num)
      (by norm_num) (by rw [abs_lt]; constructor <;> norm_num)
    rw [key]
    norm_num
  · have key := round32_eq_of_bounds (2 ^ (-59 : ℤ)) (-59) 8388608 (by norm_num) (by norm_num)
      (by norm_num) (by rw [abs_lt]; constructor <;> norm_num)
    rw [key]
    norm_num
  · rw [count_e_binary32_eq, count_e_binary32_eq]
    have e1 : round32 ((2 : ℚ) ^ (-60 : ℤ) * 2 ^ (-60 : ℤ)) = 2 ^ (-120 : ℤ) := by
      have key := round32_eq_of_bounds ((2 : ℚ) ^ (-60 : ℤ) * 2 ^ (-60 : ℤ)) (-120) 8388608
        (by norm_num) (by norm_num) (by norm_num) (by rw [abs_lt]; constructor <;> norm_num)
      rw [key]
      norm_num
    have e2 : round32 ((2 : ℚ) ^ (-59 : ℤ) * 2 ^ (-60 : ℤ)) = 2 ^ (-119 : ℤ) := by
      have key := round32_eq_of_bounds ((2 : ℚ) ^ (-59 : ℤ) * 2 ^ (-60 : ℤ)) (-119) 8388608
        (by norm_num) (by norm_num) (by norm_num) (by rw [abs_lt]; constructor <;> norm_num)
      rw [key]
      norm_num
    have t1 : round32 ((2 : ℚ) ^ (-120 : ℤ) * 2 ^ (-60 : ℤ)) = 0 :=
      round32_tiny (by positivity) (by norm_num)
    have t2 : round32 ((2 : ℚ) ^ (-119 : ℤ) * 2 ^ (-60 : ℤ)) = 0 :=
      round32_tiny (by positivity) (by norm_num)
    rw [e1, e2, t1, t2]
  · intro hall
    have hlt := hall (round32 (1 / 5)) (round32 (2 / 5)) (13107203 / 524288) (3276801 / 131072)
      (by rw [round32_h]; norm_num) (by rw [round32_w]; norm_num) (by norm_num) (by norm_num)
    rw [hord] at hlt
    exact lt_irrefl _ hlt

/-- C2, amended. With all three arguments positive, raising any one argument of
`count_e` to a larger value, the other two held fixed, never lowers the
binary32 result (it can stay the same); the exact value
`L * h * w / (M_PI * 1.75^2 / 4)` that the result approximates strictly
increases. -/
theorem count_e_binary32_monotone (h w L h' w' L' : ℚ)
    (hh : 0 < h) (hw : 0 < w) (hL : 0 < L) :
    ((h ≤ h' → count_e_binary32 h w L ≤ count_e_binary32 h' w L) ∧
      (w ≤ w' → count_e_binary32 h w L ≤ count_e_binary32 h w' L) ∧
      (L ≤ L' → count_e_binary32 h w L ≤ count_e_binary32 h w L')) ∧
    ((h < h' → count_e h w L < count_e h' w L) ∧
      (w < w' → count_e h w L < count_e h w' L) ∧
      (L < L' → count_e h w L < count_e h w L')) :=
  ⟨⟨fun hle => count_e_binary32_mono_height h h' w L hh.le hw.le hL.le hle,
    fun hle => count_e_binary32_mono_width h w w' L hh.le hw.le hL.le hle,
    fun hle => count_e_binary32_mono_length h w L L' hh.le hw.le hL.le hle⟩,
   count_e_exact_strictly_increasing h w L h' w' L' hh hw hL⟩

/-- C2 amended, at `h = 0.2`, `w = 0.4`, `L = 19.6` against the larger values
`0.3`, `0.5`, `20`. -/
theorem count_e_binary32_monotone_witness :
    (count_e_binary32 (1 / 5) (2 / 5) (98 / 5) ≤ count_e_binary32 (3 / 10) (2 / 5) (98 / 5) ∧
      count_e_binary32 (1 / 5) (2 / 5) (98 / 5) ≤ count_e_binary32 (1 / 5) (1 / 2) (98 / 5) ∧
      count_e_binary32 (1 / 5) (2 / 5) (98 / 5) ≤ count_e_binary32 (1 / 5) (2 / 5) 20) ∧
    (count_e (1 / 5) (2 / 5) (98 / 5) < count_e (3 / 10) (2 / 5) (98 / 5) ∧
      count_e (1 / 5) (2 / 5) (98 / 5) < count_e (1 / 5) (1 / 2) (98 / 5) ∧
      count_e (1 / 5) (2 / 5) (98 / 5) < count_e (1 / 5) (2 / 5) 20) :=
  have key := count_e_binary32_monotone (1 / 5) (2 / 5) (98 / 5) (3 / 10) (1 / 2) 20
    (by norm_num) (by norm_num) (by norm_num)
  ⟨⟨key.1.1 (by norm_num), key.1.2.1 (by norm_num), key.1.2.2 (by norm_num)⟩,
   ⟨key.2.1 (by norm_num), key.2.2.1 (by norm_num), key.2.2.2 (by norm_num)⟩⟩

/-! ## Square pattern -/

/-- One call of `lay1cal_square` appends its four formatted commands. -/
lemma lay1cal_square_queue (i : Nat) (s : State) :
    (lay1cal_square i s).queue = s.queue ++
      [fmt1 70 (35 - (i : ℚ) * width * 2) extr,
       fmt2 (35 - ((2 * i + 1 : Nat) : ℚ) * width) (count_e height width width),
       fmt1 50 (35 - ((2 * i + 1 : Nat) : ℚ) * width) extr,
       fmt2 (35 - ((i + 1 : Nat) : ℚ) * width * 2) (count_e height width width)] := by
  simp [lay1cal_square, sprintf_P, enquecommand]

/-- C3. For every index `i` in `0..15`, `lay1cal_square` enqueues exactly four
commands, in order `G1 X70 Y(35-2*i*width) E(extr)`, `G1 Y(35-(2i+1)*width)
E(extr_short_segment)`, `G1 X50 Y(35-(2i+1)*width) E(extr)` and
`G1 Y(35-2*(i+1)*width) E(extr_short_segment)`, with `width = 0.4`,
`extr = count_e 0.2 0.4 (20 - 0.4)` and
`extr_short_segment = count_e 0.2 0.4 0.4`. -/
theorem lay1cal_square_four_commands (i : Nat) (_hi : i < 16) (s : State) :
    ∃ c1 c2 c3 c4 : Cmd,
      (lay1cal_square i s).queue = s.queue ++ [c1, c2, c3, c4] ∧
      (c1.map Word.letter = ['G', 'X', 'Y', 'E'] ∧ c1.arg 'G' = some 1 ∧
        c1.arg 'X' = some 70 ∧ c1.arg 'Y' = some (35 - 2 * (i : ℚ) * 0.4) ∧
        c1.arg 'E' = some (count_e 0.2 0.4 (20 - 0.4))) ∧
      (c2.map Word.letter = ['G', 'Y', 'E'] ∧ c2.arg 'G' = some 1 ∧
        c2.arg 'Y' = some (35 - (2 * (i : ℚ) + 1) * 0.4) ∧
        c2.arg 'E' = some (count_e 0.2 0.4 0.4)) ∧
      (c3.map Word.letter = ['G', 'X', 'Y', 'E'] ∧ c3.arg 'G' = some 1 ∧
        c3.arg 'X' = some 50 ∧ c3.arg 'Y' = some (35 - (2 * (i : ℚ) + 1) * 0.4) ∧
        c3.arg 'E' = some (count_e 0.2 0.4 (20 - 0.4))) ∧
      (c4.map Word.letter = ['G', 'Y', 'E'] ∧ c4.arg 'G' = some 1 ∧
        c4.arg 'Y' = some (35 - 2 * ((i : ℚ) + 1) * 0.4) ∧
        c4.arg 'E' = some (count_e 0.2 0.4 0.4)) := by
  refine ⟨_, _, _, _, lay1cal_square_queue i s, ?_, ?_, ?_, ?_⟩
  · simp [fmt1, G1, Cmd.arg, Num.val, extr, height, width, length]
    ring
  · simp [fmt2, G1, Cmd.arg, Num.val, height, width]
  · simp [fmt1, G1, Cmd.arg, Num.val, extr, height, width, length]
  · simp [fmt2, G1, Cmd.arg, Num.val, height, width]
    ring

/-- C3, at index 3: the four commands go to Y = 32.6, 32.2, 32.2 and 31.8. -/
theorem lay1cal_square_four_commands_witness :
    ∃ c1 c2 c3 c4 : Cmd,
      (lay1cal_square 3 State.init).queue = State.init.queue ++ [c1, c2, c3, c4] ∧
      (c1.map Word.letter = ['G', 'X', 'Y', 'E'] ∧ c1.arg 'G' = some 1 ∧
        c1.arg 'X' = some 70 ∧ c1.arg 'Y' = some (35 - 2 * ((3 : Nat) : ℚ) * 0.4) ∧
        c1.arg 'E' = some (count_e 0.2 0.4 (20 - 0.4))) ∧
      (c2.map Word.letter = ['G', 'Y', 'E'] ∧ c2.arg 'G' = some 1 ∧
        c2.arg 'Y' = some (35 - (2 * ((3 : Nat) : ℚ) + 1) * 0.4) ∧
        c2.arg 'E' = some (count_e 0.2 0.4 0.4)) ∧
      (c3.map Word.letter = ['G', 'X', 'Y', 'E'] ∧ c3.arg 'G' = some 1 ∧
        c3.arg 'X' = some 50 ∧ c3.arg 'Y' = some (35 - (2 * ((3 : Nat) : ℚ) + 1) * 0.4) ∧
        c3.arg 'E' = some (count_e 0.2 0.4 (20 - 0.4))) ∧
      (c4.map Word.letter = ['G', 'Y', 'E'] ∧ c4.arg 'G' = some 1 ∧
        c4.arg 'Y' = some (35 - 2 * (((3 : Nat) : ℚ) + 1) * 0.4) ∧
        c4.arg 'E' = some (count_e 0.2 0.4 0.4)) :=
  lay1cal_square_four_commands 3 (by decide) State.init

/-- The caller's loop appends the commands of each call in turn. -/
lemma squareRun_succ (n : Nat) (s : State) :
    squareRun (n + 1) s = lay1cal_square n (squareRun n s) := by
  simp [squareRun, List.range_succ]

/-- Queue after the caller's loop of `n` calls. -/
lemma squareRun_queue (n : Nat) (s : State) :
    (squareRun n s).queue = s.queue ++ ((List.range n).map squareCmds).flatten := by
  induction n with
  | zero => simp [squareRun]
  | succ n ih =>
    rw [squareRun_succ, lay1cal_square_queue, ih, List.range_succ]
    simp [squareCmds, lay1cal_square_queue, State.init]

/-- C4. The calls `lay1cal_square i` for `i = 0, 1, ..., 15` in order put exactly
64 commands on the queue; from each command to the next the Y argument never
increases; and the commands that carry an X argument carry 70, 50, 70, 50, ...
in strict alternation. -/
theorem squareRun_sixteen :
    (squareRun 16 State.init).queue.length = 64 ∧
    List.Chain' (fun a b : Cmd => ∃ ya yb : ℚ,
        a.arg 'Y' = some ya ∧ b.arg 'Y' = some yb ∧ yb ≤ ya)
      (squareRun 16 State.init).queue ∧
    (squareRun 16 State.init).queue.filterMap (fun c => c.arg 'X')
      = (List.replicate 16 [(70 : ℚ), 50]).flatten := by
  rw [squareRun_queue]
  refine ⟨?_, ?_, ?_⟩
  · simp [State.init, List.range_succ, squareCmds, lay1cal_square_queue]
  · simp [State.init, List.range_succ, squareCmds, lay1cal_square_queue, fmt1, fmt2, G1,
      Cmd.arg, Num.val, width]
    norm_num
  · simp [State.init, List.range_succ, squareCmds, lay1cal_square_queue, fmt1, fmt2, G1,
      Cmd.arg, Num.val, List.replicate]

/-! ## Meander -/

/-- The seventeen commands of the meander, in order. -/
lemma meanderCmds_eq (X Y : ℚ) :
    meanderCmds X Y =
      [[G1, ⟨'X', .f (some 2) 0 startX⟩, ⟨'Y', .f none 2 (startY Y)⟩],
       [G1, ⟨'Z', .lit 150 3⟩, ⟨'F', .lit 7200000 3⟩],
       [G1, ⟨'F', .lit 1080 0⟩],
       [G1, ⟨'X', .lit 45 0⟩, ⟨'Y', .f (some 2) 0 (startY Y)⟩, ⟨'E', .lit 25 1⟩],
       [G1, ⟨'X', .lit 70 0⟩, ⟨'Y', .f (some 2) 0 (startY Y)⟩, ⟨'E', .lit 25 1⟩],
       fmtXYE (endX X) (startY Y) (extrX_short X),
       fmtXYE (endX X) (posY1 Y) (extrY Y),
       fmtXYE startX (posY1 Y) (extrX X),
       fmtXYE startX (posY2 Y) (extrY Y),
       fmtXYE (endX X) (posY2 Y) (extrX X),
       fmtXYE (endX X) (posY3 Y) (extrY Y),
       fmtXYE startX (posY3 Y) (extrX X),
       fmtXYE startX (posY4 Y) (extrY Y),
       fmtXYE (endX X) (posY4 Y) (extrX X),
       fmtXYE (endX X) (posY5 Y) (extrY Y),
       [G1, ⟨'X', .lit 50 0⟩, ⟨'Y', .f none 2 (posY5 Y)⟩, ⟨'E', .f none 3 (extrX_short2 X)⟩],
       [G1, ⟨'X', .lit 50 0⟩, ⟨'Y', .lit 35 0⟩, ⟨'E', .f none 3 extr⟩]] := by
  simp [meanderCmds, lay1cal_meander, sprintf_P, enquecommand, State.init]

/-- On any queue, `lay1cal_meander` appends the commands it puts on an empty one. -/
lemma lay1cal_meander_queue (X Y : ℚ) (s : State) :
    (lay1cal_meander X Y s).queue = s.queue ++ meanderCmds X Y := by
  rw [meanderCmds_eq]
  simp [lay1cal_meander, sprintf_P, enquecommand]

/-- C5. For every choice of `X_MAX_POS` and `Y_MAX_POS`, `lay1cal_meander`
enqueues exactly 17 commands, and at each position of the sequence the letters
and conversions of the command (its format string) are the same for every
choice of the constants: only the formatted X, Y and E arguments vary. -/
theorem lay1cal_meander_seventeen (X Y : ℚ) (s : State) :
    (lay1cal_meander X Y s).queue = s.queue ++ meanderCmds X Y ∧
    (meanderCmds X Y).length = 17 ∧
    ∀ X' Y' : ℚ, (meanderCmds X Y).map Cmd.shape = (meanderCmds X' Y').map Cmd.shape := by
  refine ⟨lay1cal_meander_queue X Y s, ?_, fun X' Y' => ?_⟩
  · simp [meanderCmds_eq]
  · simp [meanderCmds_eq, Cmd.shape, fmtXYE, G1, Num.conv]

/-- C7, as stated, fails: for `X_MAX_POS = 250`, `Y_MAX_POS = 210` the 7th
command does not have X = 230, Y = 163.4 and the full-span feed
`count_e 0.2 0.4 (230 - 20 - 0.4)` together, and neither has any other command
of the sequence. -/
theorem meander_seventh_not_full_span :
    (¬ ∃ c : Cmd, (meanderCmds 250 210)[6]? = some c ∧ c.arg 'X' = some 230 ∧
        c.arg 'Y' = some 163.4 ∧ c.arg 'E' = some (count_e 0.2 0.4 (230 - 20 - 0.4))) ∧
    (∀ c ∈ meanderCmds 250 210, ¬ (c.arg 'X' = some 230 ∧
        c.arg 'Y' = some 163.4 ∧ c.arg 'E' = some (count_e 0.2 0.4 (230 - 20 - 0.4)))) := by
  have hall : ∀ c ∈ meanderCmds 250 210, ¬ (c.arg 'X' = some 230 ∧
      c.arg 'Y' = some 163.4 ∧ c.arg 'E' = some (count_e 0.2 0.4 (230 - 20 - 0.4))) := by
    intro c hc
    simp only [meanderCmds_eq, List.mem_cons, List.mem_singleton, List.not_mem_nil,
      or_false] at hc
    rcases hc with h | h | h | h | h | h | h | h | h | h | h | h | h | h | h | h | h <;>
      subst h <;>
      simp [fmtXYE, G1, Cmd.arg, Num.val, startX, startY, endX, posY1, posY2, posY3, posY4,
        posY5, lengthCSy, lengthCSx, lengthCSx_short, lengthCSx_short2, extrX, extrY,
        extrX_short, extrX_short2, extr, width, height, length, count_e, M_PI] <;>
      norm_num
  refine ⟨?_, hall⟩
  rintro ⟨c, hc, hprop⟩
  exact hall c (List.getElem?_mem hc) hprop

/-- C7, amended. With `X_MAX_POS = 250` and `Y_MAX_POS = 210` the 7th command
has X = endX = 230, Y = posY1 = 163.4 and the feed `count_e 0.2 0.4 26.6` of a
vertical pitch `lengthCSy`; the feed of a full-span horizontal pass,
`count_e 0.2 0.4 (230 - 20 - 0.4)`, is carried by the 8th command, which has
X = startX = 20 and Y = posY1 = 163.4. -/
theorem meander_seventh_eighth :
    ∃ c7 c8 : Cmd,
      (meanderCmds 250 210)[6]? = some c7 ∧ (meanderCmds 250 210)[7]? = some c8 ∧
      (c7.arg 'X' = some (endX 250) ∧ endX 250 = 230 ∧
        c7.arg 'Y' = some (posY1 210) ∧ posY1 210 = 163.4 ∧
        c7.arg 'E' = some (count_e 0.2 0.4 26.6) ∧ lengthCSy 210 = 26.6) ∧
      (c8.arg 'X' = some startX ∧ startX = 20 ∧
        c8.arg 'Y' = some (posY1 210) ∧
        c8.arg 'E' = some (count_e 0.2 0.4 (230 - 20 - 0.4))) := by
  refine ⟨fmtXYE (endX 250) (posY1 210) (extrY 210), fmtXYE startX (posY1 210) (extrX 250),
    ?_, ?_, ?_, ?_⟩
  · simp [meanderCmds_eq]
  · simp [meanderCmds_eq]
  · simp [fmtXYE, G1, Cmd.arg, Num.val, startY, endX, posY1, lengthCSy, extrY, width, height]
    norm_num
  · simp [fmtXYE, G1, Cmd.arg, Num.val, startX, endX, lengthCSx, extrX, width, height]
    norm_num

/-! ## Meander geometry: pass heights -/

/-- C8. The meander geometry is `startX = 20`, `startY = Y_MAX_POS - 20`,
`endX = X_MAX_POS - 20` and `lengthCSy = (startY - 55)/5 - width` with
`width = 0.4`; for `X_MAX_POS = 250`, `Y_MAX_POS = 210` this gives
`startX = 20`, `startY = 190`, `endX = 230`, `lengthCSy = 26.6` and
`posY1 = 163.4`. -/
theorem meander_geometry :
    (∀ X Y : ℚ, startX = 20 ∧ startY Y = Y - 20 ∧ endX X = X - 20 ∧
      lengthCSy Y = (startY Y - 55) / 5 - width ∧ width = 0.4) ∧
    (startX = 20 ∧ startY 210 = 190 ∧ endX 250 = 230 ∧ lengthCSy 210 = 26.6 ∧
      posY1 210 = 163.4) := by
  refine ⟨fun X Y => ⟨rfl, rfl, rfl, rfl, rfl⟩, rfl, ?_, ?_, ?_, ?_⟩
  · norm_num [startY]
  · norm_num [endX]
  · norm_num [lengthCSy, startY, width]
  · norm_num [posY1, lengthCSy, startY, width]

/-- The pitch between passes is positive exactly above `Y_MAX_POS = 77`. -/
lemma lengthCSy_pos_iff (Y : ℚ) : 0 < lengthCSy Y ↔ 77 < Y := by
  unfold lengthCSy startY width
  constructor <;> intro h <;> linarith

/-- C9, as stated, fails: `Y_MAX_POS = 76` meets `Y_MAX_POS > 75`, yet the first
pass height `posY1 = 56.2` lies above `startY = 56`. -/
theorem pass_heights_not_decreasing_at_76 :
    (75 : ℚ) < 76 ∧
    ¬ (startY 76 > posY1 76 ∧ posY1 76 > posY2 76 ∧ posY2 76 > posY3 76 ∧
        posY3 76 > posY4 76 ∧ posY4 76 > posY5 76) ∧
    startY 76 = 56 ∧ posY1 76 = 56.2 := by
  refine ⟨by norm_num, ?_, ?_, ?_⟩
  · rintro ⟨h, -⟩
    norm_num [posY1, lengthCSy, startY, width] at h
  · norm_num [startY]
  · norm_num [posY1, lengthCSy, startY, width]

/-- C9, amended. For every `Y_MAX_POS > 77` the five pass heights satisfy
`startY > posY1 > posY2 > posY3 > posY4 > posY5`, each consecutive difference
equals the pitch `lengthCSy = (startY - 55)/5 - width`, and
`posYk = startY - k * lengthCSy` for `k = 1..5`. -/
theorem pass_heights_decreasing (Y : ℚ) (hY : 77 < Y) :
    (startY Y > posY1 Y ∧ posY1 Y > posY2 Y ∧ posY2 Y > posY3 Y ∧
      posY3 Y > posY4 Y ∧ posY4 Y > posY5 Y) ∧
    (startY Y - posY1 Y = lengthCSy Y ∧ posY1 Y - posY2 Y = lengthCSy Y ∧
      posY2 Y - posY3 Y = lengthCSy Y ∧ posY3 Y - posY4 Y = lengthCSy Y ∧
      posY4 Y - posY5 Y = lengthCSy Y) ∧
    lengthCSy Y = (startY Y - 55) / 5 - width ∧
    (posY1 Y = startY Y - 1 * lengthCSy Y ∧ posY2 Y = startY Y - 2 * lengthCSy Y ∧
      posY3 Y = startY Y - 3 * lengthCSy Y ∧ posY4 Y = startY Y - 4 * lengthCSy Y ∧
      posY5 Y = startY Y - 5 * lengthCSy Y) := by
  have hp : 0 < lengthCSy Y := (lengthCSy_pos_iff Y).mpr hY
  unfold posY5 posY4 posY3 posY2 posY1
  refine ⟨⟨?_, ?_, ?_, ?_, ?_⟩, ⟨?_, ?_, ?_, ?_, ?_⟩, rfl, ⟨?_, ?_, ?_, ?_, ?_⟩⟩ <;>
    linarith

/-- C9 amended, at `Y_MAX_POS = 210`. -/
theorem pass_heights_decreasing_witness :
    (startY 210 > posY1 210 ∧ posY1 210 > posY2 210 ∧ posY2 210 > posY3 210 ∧
      posY3 210 > posY4 210 ∧ posY4 210 > posY5 210) ∧
    (startY 210 - posY1 210 = lengthCSy 210 ∧ posY1 210 - posY2 210 = lengthCSy 210 ∧
      posY2 210 - posY3 210 = lengthCSy 210 ∧ posY3 210 - posY4 210 = lengthCSy 210 ∧
      posY4 210 - posY5 210 = lengthCSy 210) ∧
    lengthCSy 210 = (startY 210 - 55) / 5 - width ∧
    (posY1 210 = startY 210 - 1 * lengthCSy 210 ∧ posY2 210 = startY 210 - 2 * lengthCSy 210 ∧
      posY3 210 = startY 210 - 3 * lengthCSy 210 ∧ posY4 210 = startY 210 - 4 * lengthCSy 210 ∧
      posY5 210 = startY 210 - 5 * lengthCSy 210) :=
  pass_heights_decreasing 210 (by norm_num)

/-! ## Meander: feed lengths against traced segments -/

/-- C10, as stated, fails: for `X_MAX_POS = 250`, `Y_MAX_POS = 210` the text of
the first lead-in move, the 4th command, traces 25 mm, from (20, 190) to
(45, 190), and carries the feed 2.5, which is not `count_e 0.2 0.4 25` (about
0.83) and is more than 1 away from it. -/
theorem meander_lead_in_feed_not_count_e :
    (shownMoves (0, 0) (meanderCmds 250 210))[3]? = some (25, some (5 / 2)) ∧
    1 < |(5 / 2 : ℚ) - count_e 0.2 0.4 25| ∧
    ¬ (∀ m ∈ shownMoves (0, 0) (meanderCmds 250 210), ∀ e : ℚ,
        m.2 = some e → e = count_e 0.2 0.4 m.1) := by
  have h3 : (shownMoves (0, 0) (meanderCmds 250 210))[3]? = some (25, some (5 / 2)) := by
    rw [meanderCmds_eq]
    simp [shownMoves, shownTarget, fmtXYE, G1, Cmd.shownArg, Num.shown, startX, startY]
    norm_num
  have hne : 1 < |(5 / 2 : ℚ) - count_e 0.2 0.4 25| := by
    rw [lt_abs]
    left
    norm_num [count_e, M_PI]
  refine ⟨h3, hne, ?_⟩
  intro hall
  have h := hall _ (List.getElem?_mem h3) (5 / 2) rfl
  rw [← h] at hne
  norm_num at hne

/-- C10, amended. For every choice of the bed constants the E words of the 17
commands are: none on the first three; the literal 2.5 on the two lead-in
moves; then, each formatted with `%-.3f` from `count_e 0.2 0.4 L`, the derived
lengths `L = lengthCSx - 50` on the first pass, `lengthCSy` on the five
vertical pitches, `lengthCSx` on the four full passes, `lengthCSx - 30` on the
last pass and the test-line length `20 - 0.4` on the closing move.  `lengthCSy`
is the distance between consecutive pass heights, and each X length is the
distance between the X values of the end points of its pass less the line
width: from 70 to `endX`, between `startX` and `endX`, from `endX` to 50. -/
theorem meander_feeds (X Y : ℚ) :
    (meanderCmds X Y).map (fun c => c.field 'E') =
      [none, none, none, some (.lit 25 1), some (.lit 25 1),
       some (.f none 3 (count_e 0.2 0.4 (lengthCSx X - 50))),
       some (.f none 3 (count_e 0.2 0.4 (lengthCSy Y))),
       some (.f none 3 (count_e 0.2 0.4 (lengthCSx X))),
       some (.f none 3 (count_e 0.2 0.4 (lengthCSy Y))),
       some (.f none 3 (count_e 0.2 0.4 (lengthCSx X))),
       some (.f none 3 (count_e 0.2 0.4 (lengthCSy Y))),
       some (.f none 3 (count_e 0.2 0.4 (lengthCSx X))),
       some (.f none 3 (count_e 0.2 0.4 (lengthCSy Y))),
       some (.f none 3 (count_e 0.2 0.4 (lengthCSx X))),
       some (.f none 3 (count_e 0.2 0.4 (lengthCSy Y))),
       some (.f none 3 (count_e 0.2 0.4 (lengthCSx X - 30))),
       some (.f none 3 (count_e 0.2 0.4 (20 - 0.4)))] ∧
    Num.val (.lit 25 1) = 2.5 ∧
    (meanderCmds X Y).map (fun c => (c.arg 'X', c.arg 'Y')) =
      [(some startX, some (startY Y)), (none, none), (none, none),
       (some 45, some (startY Y)), (some 70, some (startY Y)),
       (some (endX X), some (startY Y)), (some (endX X), some (posY1 Y)),
       (some startX, some (posY1 Y)), (some startX, some (posY2 Y)),
       (some (endX X), some (posY2 Y)), (some (endX X), some (posY3 Y)),
       (some startX, some (posY3 Y)), (some startX, some (posY4 Y)),
       (some (endX X), some (posY4 Y)), (some (endX X), some (posY5 Y)),
       (some 50, some (posY5 Y)), (some 50, some 35)] ∧
    (startY Y - posY1 Y = lengthCSy Y ∧ posY1 Y - posY2 Y = lengthCSy Y ∧
      posY2 Y - posY3 Y = lengthCSy Y ∧ posY3 Y - posY4 Y = lengthCSy Y ∧
      posY4 Y - posY5 Y = lengthCSy Y) ∧
    (endX X - 70 = (lengthCSx X - 50) + width ∧ endX X - startX = lengthCSx X + width ∧
      endX X - 50 = (lengthCSx X - 30) + width) := by
  refine ⟨?_, ?_, ?_, ⟨?_, ?_, ?_, ?_, ?_⟩, ⟨?_, ?_, ?_⟩⟩
  · rw [meanderCmds_eq]
    simp [fmtXYE, G1, Cmd.field, extrX, extrY, extrX_short, extrX_short2, extr,
      lengthCSx_short, lengthCSx_short2, height, width, length]
  · norm_num [Num.val]
  · rw [meanderCmds_eq]
    simp [fmtXYE, G1, Cmd.arg, Num.val]
  · unfold posY1
    ring
  · unfold posY2
    ring
  · unfold posY3
    ring
  · unfold posY4
    ring
  · unfold posY5
    ring
  · unfold lengthCSx startX
    ring
  · unfold lengthCSx
    ring
  · unfold lengthCSx startX
    ring

/-! ## Fixed command lists: intro line and filament load -/

/-- C11. `lay1cal_intro_line` enqueues exactly 2 commands when the MMU flag is
false and exactly 10 when it is true, and no command text of the MMU sequence
equals a command text of the other sequence. -/
theorem lay1cal_intro_line_counts (s : TextState) :
    (∃ plain : List String,
      (lay1cal_intro_line false s).queue = s.queue ++ plain ∧ plain.length = 2 ∧
      ∃ mmu : List String,
        (lay1cal_intro_line true s).queue = s.queue ++ mmu ∧ mmu.length = 10 ∧
        ∀ a ∈ mmu, ∀ b ∈ plain, a ≠ b) := by
  refine ⟨["G1 X60.0 E9.0 F1000.0", "G1 X100.0 E12.5 F1000.0"], ?_, rfl,
    intro_mmu_cmd, ?_, rfl, ?_⟩
  · simp [lay1cal_intro_line, TextState.enquecommand_P]
  · simp [lay1cal_intro_line, intro_mmu_cmd, TextState.enquecommand_P]
  · decide

/-- C12. For all positive `h` and `w`, `count_e h w 0 = 0`. -/
theorem count_e_zero_length (h w : ℚ) (_hh : 0 < h) (_hw : 0 < w) :
    count_e h w 0 = 0 := by
  simp [count_e]

/-- C12, at `h = 0.2`, `w = 0.4`. -/
theorem count_e_zero_length_witness : count_e (1 / 5) (2 / 5) 0 = 0 :=
  count_e_zero_length (1 / 5) (2 / 5) (by norm_num) (by norm_num)

/-- C15. `lay1cal_load_filament` branches only on the MMU flag: with the flag
false the queue and the format buffer are unchanged for every filament value;
with the flag true exactly four commands are enqueued, in order `M83`,
`G1 Y-3.0 F1000.0`, `G1 Z0.4 F1000.0` and `T` followed by the decimal value of
`filament` (for instance `T3` for filament 3). -/
theorem lay1cal_load_filament_commands (filament : Nat) (s : TextState) :
    lay1cal_load_filament false filament s = s ∧
    (lay1cal_load_filament true filament s).queue =
      s.queue ++ ["M83", "G1 Y-3.0 F1000.0", "G1 Z0.4 F1000.0", "T" ++ Nat.repr filament] ∧
    ((lay1cal_load_filament true filament s).queue.length = s.queue.length + 4) ∧
    "T" ++ Nat.repr 3 = "T3" ∧ "T" ++ Nat.repr 255 = "T255" := by
  refine ⟨rfl, ?_, ?_, by decide, by decide⟩
  · simp [lay1cal_load_filament, TextState.enquecommand_P, TextState.sprintf_P_T,
      TextState.enquecommand]
    rfl
  · simp [lay1cal_load_filament, TextState.enquecommand_P, TextState.sprintf_P_T,
      TextState.enquecommand]

/-! ## Meander: the traced path -/

/-- Targets of the meander from the feed-rate command on: the start point, the
two lead-in points, the zig-zag corners and the end point. -/
lemma positions_meander (X Y : ℚ) (p : ℚ × ℚ) :
    (positions p (meanderCmds X Y)).drop 2 =
      [(startX, startY Y), (45, startY Y), (70, startY Y), (endX X, startY Y),
       (endX X, posY1 Y), (startX, posY1 Y), (startX, posY2 Y), (endX X, posY2 Y),
       (endX X, posY3 Y), (startX, posY3 Y), (startX, posY4 Y), (endX X, posY4 Y),
       (endX X, posY5 Y), (50, posY5 Y), (50, 35)] := by
  rw [meanderCmds_eq]
  simp [positions, target, fmtXYE, G1, Cmd.arg, Num.val]

/-- The lowest pass height does not depend on the bed size. -/
lemma posY5_eq (Y : ℚ) : posY5 Y = 57 := by
  unfold posY5 posY4 posY3 posY2 posY1 lengthCSy startY width
  ring

/-- The corners of the meander, from the start point to the end point: for bed
constants with `X_MAX_POS` not 40, 70 or 90 and `Y_MAX_POS` not 77 (no pass or
pitch of zero length), each step changes exactly one coordinate. -/
lemma meander_corners_oneAxis (X Y : ℚ) (hX40 : X ≠ 40) (hX70 : X ≠ 70) (hX90 : X ≠ 90)
    (hY : Y ≠ 77) :
    List.Chain' oneAxis
      [(startX, startY Y), (45, startY Y), (70, startY Y), (endX X, startY Y),
       (endX X, posY1 Y), (startX, posY1 Y), (startX, posY2 Y), (endX X, posY2 Y),
       (endX X, posY3 Y), (startX, posY3 Y), (startX, posY4 Y), (endX X, posY4 Y),
       (endX X, posY5 Y), (50, posY5 Y), (50, 35)] := by
  have e70 : endX X ≠ 70 := by
    unfold endX
    intro h
    exact hX90 (by linarith)
  have e20n : endX X ≠ 20 := by
    unfold endX
    intro h
    exact hX40 (by linarith)
  have e50 : endX X ≠ 50 := by
    unfold endX
    intro h
    exact hX70 (by linarith)
  have hp : lengthCSy Y ≠ 0 := by
    unfold lengthCSy startY width
    intro h
    exact hY (by linarith)
  have y1 : posY1 Y ≠ startY Y := by
    unfold posY1
    intro h
    exact hp (by linarith)
  have y2 : posY2 Y ≠ posY1 Y := by
    unfold posY2
    intro h
    exact hp (by linarith)
  have y3 : posY3 Y ≠ posY2 Y := by
    unfold posY3
    intro h
    exact hp (by linarith)
  have y4 : posY4 Y ≠ posY3 Y := by
    unfold posY4
    intro h
    exact hp (by linarith)
  have y5n : (57 : ℚ) ≠ posY4 Y := by
    rw [← posY5_eq Y]
    unfold posY5
    intro h
    exact hp (by linarith)
  simp [List.chain'_cons, oneAxis, e70, e20n, e20n.symm, e50, Ne.symm e50, y1, y2, y3, y4,
    y5n, posY5_eq, startX]

/-- On the coordinate arguments, before they are rendered: for bed constants
with `X_MAX_POS` not 40, 70 or 90 and `Y_MAX_POS` not 77, every command from
the first lead-in to the closing move has an E word and changes exactly one of
X, Y; the five vertical pitch moves lie at X = `endX`, `startX`, `endX`,
`startX`, `endX`. -/
lemma meander_path_continuous (X Y : ℚ) (hX40 : X ≠ 40) (hX70 : X ≠ 70) (hX90 : X ≠ 90)
    (hY : Y ≠ 77) (p : ℚ × ℚ) :
    (∀ c ∈ (meanderCmds X Y).drop 3, (c.arg 'E').isSome) ∧
    List.Chain' oneAxis ((positions p (meanderCmds X Y)).drop 2) ∧
    (positions p (meanderCmds X Y)).drop 2 =
      [(startX, startY Y), (45, startY Y), (70, startY Y), (endX X, startY Y),
       (endX X, posY1 Y), (startX, posY1 Y), (startX, posY2 Y), (endX X, posY2 Y),
       (endX X, posY3 Y), (startX, posY3 Y), (startX, posY4 Y), (endX X, posY4 Y),
       (endX X, posY5 Y), (50, posY5 Y), (50, 35)] := by
  refine ⟨?_, ?_, positions_meander X Y p⟩
  · rw [meanderCmds_eq]
    simp [fmtXYE, G1, Cmd.arg]
  · rw [positions_meander]
    exact meander_corners_oneAxis X Y hX40 hX70 hX90 hY

/-- C14. For every `Y_MAX_POS` the lowest pass height is
`posY5 = 55 + 5 * width = 57`, and the closing move of the meander, the 17th
command, to X50 Y35, traces a 22 mm segment for every choice of the constants. -/
theorem posY5_fixed_closing_22 (X Y : ℚ) (p : ℚ × ℚ) :
    posY5 Y = 55 + 5 * width ∧ posY5 Y = 57 ∧
    (∃ c : Cmd, (meanderCmds X Y)[16]? = some c ∧ (meanderCmds X Y).length = 17 ∧
      c.arg 'X' = some 50 ∧ c.arg 'Y' = some 35) ∧
    (positions p (meanderCmds X Y))[15]? = some (50, 57) ∧
    (positions p (meanderCmds X Y))[16]? = some (50, 35) ∧
    ∃ e : Option ℚ, (moves p (meanderCmds X Y))[16]? = some (22, e) := by
  have h5 := posY5_eq Y
  have hpos := positions_meander X Y p
  refine ⟨?_, h5, ?_, ?_, ?_, ?_⟩
  · rw [h5]
    norm_num [width]
  · rw [meanderCmds_eq]
    simp [G1, Cmd.arg, Num.val]
  · have h := congrArg (fun l => l[13]?) hpos
    simpa [h5] using h
  · have h := congrArg (fun l => l[14]?) hpos
    simpa using h
  · rw [meanderCmds_eq]
    simp [moves, traced, target, fmtXYE, G1, Cmd.arg, Num.val, h5]
    norm_num

/-! ## Square pattern: joins -/

/-- The four commands of one call of `lay1cal_square`. -/
lemma squareCmds_eq (i : Nat) :
    squareCmds i =
      [fmt1 70 (35 - (i : ℚ) * width * 2) extr,
       fmt2 (35 - ((2 * i + 1 : Nat) : ℚ) * width) (count_e height width width),
       fmt1 50 (35 - ((2 * i + 1 : Nat) : ℚ) * width) extr,
       fmt2 (35 - ((i + 1 : Nat) : ℚ) * width * 2) (count_e height width width)] := by
  simp [squareCmds, lay1cal_square_queue, State.init]

/-- C17. For every `i` in `0..14` the Y of the last command of
`lay1cal_square i` equals the Y of the first command of `lay1cal_square (i+1)`;
step 0 starts at Y = 35 and step 15 ends at Y = 35 - 32 * width = 22.2. -/
theorem square_steps_join (i : Nat) (_hi : i ≤ 14) :
    (∃ y : ℚ, (squareCmds i).getLast?.bind (fun c => c.arg 'Y') = some y ∧
      (squareCmds (i + 1)).head?.bind (fun c => c.arg 'Y') = some y) ∧
    (squareCmds 0).head?.bind (fun c => c.arg 'Y') = some 35 ∧
    (squareCmds 15).getLast?.bind (fun c => c.arg 'Y') = some (35 - 32 * width) ∧
    35 - 32 * width = 22.2 := by
  refine ⟨⟨35 - ((i + 1 : Nat) : ℚ) * width * 2, ?_, ?_⟩, ?_, ?_, ?_⟩
  · simp [squareCmds_eq, fmt2, G1, Cmd.arg, Num.val]
  · simp [squareCmds_eq, fmt1, G1, Cmd.arg, Num.val]
  · simp [squareCmds_eq, fmt1, G1, Cmd.arg, Num.val]
  · simp [squareCmds_eq, fmt2, G1, Cmd.arg, Num.val]
    ring
  · norm_num [width]

/-- C17, at step 3: it ends where step 4 starts. -/
theorem square_steps_join_witness :
    (∃ y : ℚ, (squareCmds 3).getLast?.bind (fun c => c.arg 'Y') = some y ∧
      (squareCmds (3 + 1)).head?.bind (fun c => c.arg 'Y') = some y) ∧
    (squareCmds 0).head?.bind (fun c => c.arg 'Y') = some 35 ∧
    (squareCmds 15).getLast?.bind (fun c => c.arg 'Y') = some (35 - 32 * width) ∧
    35 - 32 * width = 22.2 :=
  square_steps_join 3 (by decide)

/-! ## Number formatting -/

/-- C16, as stated, fails: the travel move of the meander formats the computed
`startX` into its X word with `%-2.f`, which renders no decimal place. -/
theorem meander_x_not_two_decimals :
    ¬ (∀ c ∈ meanderCmds 250 210, ∀ w ∈ c, w.num.isFloatConv = true →
        ((w.letter = 'X' ∨ w.letter = 'Y') → w.num.decimals = 2) ∧
        (w.letter = 'E' → w.num.decimals = 3)) := by
  intro hall
  have hc : [G1, ⟨'X', .f (some 2) 0 startX⟩, ⟨'Y', .f none 2 (startY 210)⟩]
      ∈ meanderCmds 250 210 := by
    rw [meanderCmds_eq]
    simp
  have h := (hall _ hc ⟨'X', .f (some 2) 0 startX⟩ (by simp) rfl).1 (Or.inl rfl)
  simp [Num.decimals] at h

/-- C16, amended. In the commands formatted by `lay1cal_meander` and
`lay1cal_square`: every E word formatted from a computed value has exactly
three decimal places; every Y word formatted from a computed value has exactly
two decimal places, the two lead-in moves of the meander (its 4th and 5th
command) left aside; every X word of the meander formatted from a computed
value has no decimal place (`%-2.f`), and the X words of the square are
integers written with `%d`. -/
theorem formatted_precisions (X Y : ℚ) (i : Nat) :
    (∀ c ∈ meanderCmds X Y ++ squareCmds i, ∀ w ∈ c, w.num.isFloatConv = true →
      w.letter = 'E' → w.num.decimals = 3) ∧
    (∀ c ∈ (meanderCmds X Y).take 3 ++ (meanderCmds X Y).drop 5 ++ squareCmds i, ∀ w ∈ c,
      w.num.isFloatConv = true → w.letter = 'Y' → w.num.decimals = 2) ∧
    (∀ c ∈ meanderCmds X Y, ∀ w ∈ c, w.num.isFloatConv = true →
      w.letter = 'X' → w.num.decimals = 0) ∧
    (∀ c ∈ squareCmds i, ∀ w ∈ c, w.letter = 'X' → w.num.conv = Conv.d) := by
  rw [meanderCmds_eq, squareCmds_eq]
  refine ⟨?_, ?_, ?_, ?_⟩ <;>
    simp [fmtXYE, fmt1, fmt2, G1, Num.isFloatConv, Num.decimals, Num.conv]

/-! ## Positive feed lengths -/

/-- A feed length at the fixed height and width is positive exactly for a
positive line length. -/
lemma count_e_pos_iff (L : ℚ) : 0 < count_e height width L ↔ 0 < L := by
  have h0 : count_e height width 0 = 0 := by simp [count_e]
  have hh : (0 : ℚ) < height := by norm_num [height]
  have hw : (0 : ℚ) < width := by norm_num [width]
  have key := count_e_lt_iff_length height width 0 L hh hw
  rw [h0] at key
  exact key

/-- C18. The feed lengths `extrX`, `extrY`, `extrX_short` and `extrX_short2` are
all strictly positive if and only if `X_MAX_POS > 90.4` and `Y_MAX_POS > 77`;
when either bound fails, some command enqueued by `lay1cal_meander` carries an
E argument that is not positive. -/
theorem meander_feeds_positive_iff (X Y : ℚ) :
    ((0 < extrX X ∧ 0 < extrY Y ∧ 0 < extrX_short X ∧ 0 < extrX_short2 X) ↔
      (90.4 < X ∧ 77 < Y)) ∧
    (¬ (90.4 < X ∧ 77 < Y) →
      ∃ c ∈ meanderCmds X Y, ∃ e : ℚ, c.arg 'E' = some e ∧ e ≤ 0) := by
  have hx : 0 < extrX X ↔ 40.4 < X := by
    unfold extrX
    rw [count_e_pos_iff]
    unfold lengthCSx endX startX width
    constructor <;> intro h <;> norm_num at h ⊢ <;> linarith
  have hxs : 0 < extrX_short X ↔ 90.4 < X := by
    unfold extrX_short
    rw [count_e_pos_iff]
    unfold lengthCSx_short lengthCSx endX startX width
    constructor <;> intro h <;> norm_num at h ⊢ <;> linarith
  have hxs2 : 0 < extrX_short2 X ↔ 70.4 < X := by
    unfold extrX_short2
    rw [count_e_pos_iff]
    unfold lengthCSx_short2 lengthCSx endX startX width
    constructor <;> intro h <;> norm_num at h ⊢ <;> linarith
  have hy : 0 < extrY Y ↔ 77 < Y := by
    unfold extrY
    rw [count_e_pos_iff, lengthCSy_pos_iff]
  constructor
  · rw [hx, hxs, hxs2, hy]
    constructor
    · rintro ⟨-, h2, h3, -⟩
      exact ⟨h3, h2⟩
    · rintro ⟨h1, h2⟩
      refine ⟨?_, h2, h1, ?_⟩ <;> norm_num at h1 ⊢ <;> linarith
  · intro hnot
    by_cases h1 : (90.4 : ℚ) < X
    · have h2 : ¬ 77 < Y := fun h => hnot ⟨h1, h⟩
      refine ⟨fmtXYE (endX X) (posY1 Y) (extrY Y), ?_, extrY Y, ?_, ?_⟩
      · rw [meanderCmds_eq]
        simp
      · simp [fmtXYE, G1, Cmd.arg, Num.val]
      · exact not_lt.mp (fun h => h2 (hy.mp h))
    · refine ⟨fmtXYE (endX X) (startY Y) (extrX_short X), ?_, extrX_short X, ?_, ?_⟩
      · rw [meanderCmds_eq]
        simp
      · simp [fmtXYE, G1, Cmd.arg, Num.val]
      · exact not_lt.mp (fun h => h1 (hxs.mp h))

/-- C18, at `X_MAX_POS = 80`, `Y_MAX_POS = 210`: the bound on X fails and a
command with a non-positive E argument is enqueued. -/
theorem meander_feeds_positive_iff_witness :
    ∃ c ∈ meanderCmds 80 210, ∃ e : ℚ, c.arg 'E' = some e ∧ e ≤ 0 :=
  (meander_feeds_positive_iff 80 210).2 (by norm_num)

/-! ## Meander: the path in the emitted text -/

/-- A value with at most two decimal places is printed unchanged by `%.2f`. -/
lemma round_exact2 (v : ℚ) (n : ℤ) (h : v * (10 : ℚ) ^ 2 = n) :
    (round (v * (10 : ℚ) ^ 2) : ℚ) / (10 : ℚ) ^ 2 = v := by
  rw [h, round_intCast, ← h]
  field_simp

/-- An integer value is printed unchanged at precision 0. -/
lemma round_exact0 (v : ℚ) (n : ℤ) (h : v = n) : (round v : ℚ) = v := by
  rw [h, round_intCast]

/-- On a bed with integer `X_MAX_POS` and `Y_MAX_POS` every coordinate of the
meander is printed exactly, so the text path is the path of the arguments. -/
lemma shownPositions_integer_bed (a b : ℤ) (p : ℚ × ℚ) :
    shownPositions p (meanderCmds a b) = positions p (meanderCmds a b) := by
  have hx0 : (round startX : ℚ) = startX := round_exact0 _ 20 (by norm_num [startX])
  have hxe : (round (endX a) : ℚ) = endX a :=
    round_exact0 _ (a - 20) (by unfold endX; push_cast; ring)
  have hy0 : (round (startY b) : ℚ) = startY b :=
    round_exact0 _ (b - 20) (by unfold startY; push_cast; ring)
  have hy : (round (startY b * (10 : ℚ) ^ 2) : ℚ) / (10 : ℚ) ^ 2 = startY b :=
    round_exact2 _ (100 * b - 2000) (by unfold startY; push_cast; ring)
  have hy1 : (round (posY1 b * (10 : ℚ) ^ 2) : ℚ) / (10 : ℚ) ^ 2 = posY1 b :=
    round_exact2 _ (80 * b - 460) (by unfold posY1 lengthCSy startY width; push_cast; ring)
  have hy2 : (round (posY2 b * (10 : ℚ) ^ 2) : ℚ) / (10 : ℚ) ^ 2 = posY2 b :=
    round_exact2 _ (60 * b + 1080)
      (by unfold posY2 posY1 lengthCSy startY width; push_cast; ring)
  have hy3 : (round (posY3 b * (10 : ℚ) ^ 2) : ℚ) / (10 : ℚ) ^ 2 = posY3 b :=
    round_exact2 _ (40 * b + 2620)
      (by unfold posY3 posY2 posY1 lengthCSy startY width; push_cast; ring)
  have hy4 : (round (posY4 b * (10 : ℚ) ^ 2) : ℚ) / (10 : ℚ) ^ 2 = posY4 b :=
    round_exact2 _ (20 * b + 4160)
      (by unfold posY4 posY3 posY2 posY1 lengthCSy startY width; push_cast; ring)
  have hy5 : (round (posY5 b * (10 : ℚ) ^ 2) : ℚ) / (10 : ℚ) ^ 2 = posY5 b :=
    round_exact2 _ 5700 (by rw [posY5_eq]; norm_num)
  rw [meanderCmds_eq]
  simp [shownPositions, positions, shownTarget, target, fmtXYE, G1, Cmd.shownArg, Cmd.arg,
    Num.shown, Num.val]
  simp only [hx0, hxe, hy0, hy, hy1, hy2, hy3, hy4, hy5, and_self]

/-- On every bed with integer constants and positive derived lengths
(`X_MAX_POS > 90.4`, `Y_MAX_POS > 77`) the text path is the path of the
arguments, every command from the first lead-in to the closing move has an E
word, and the text of each of them changes exactly one of X, Y. -/
lemma meander_text_path_integer_bed (a b : ℤ) (ha : (90.4 : ℚ) < a) (hb : (77 : ℚ) < b)
    (p : ℚ × ℚ) :
    shownPositions p (meanderCmds a b) = positions p (meanderCmds a b) ∧
    (∀ c ∈ (meanderCmds a b).drop 3, (c.shownArg 'E').isSome) ∧
    List.Chain' oneAxis ((shownPositions p (meanderCmds a b)).drop 2) := by
  have heq := shownPositions_integer_bed a b p
  have h40 : (a : ℚ) ≠ 40 := by
    intro h
    rw [h] at ha
    norm_num at ha
  have h70 : (a : ℚ) ≠ 70 := by
    intro h
    rw [h] at ha
    norm_num at ha
  have h90 : (a : ℚ) ≠ 90 := by
    intro h
    rw [h] at ha
    norm_num at ha
  have h77 : (b : ℚ) ≠ 77 := ne_of_gt hb
  refine ⟨heq, ?_, ?_⟩
  · rw [meanderCmds_eq]
    simp [fmtXYE, G1, Cmd.shownArg]
  · rw [heq, positions_meander]
    exact meander_corners_oneAxis a b h40 h70 h90 h77

/-- A tie at precision 0: 192.5 is printed as 193. -/
lemma round_192_5 : round (385 / 2 : ℚ) = 193 := by
  rw [round_eq]
  norm_num

/-- The text path of the meander on the bed `X_MAX_POS = 250`,
`Y_MAX_POS = 212.5`, up to the first pass. -/
lemma shownPositions_212_5 :
    (shownPositions (0, 0) (meanderCmds 250 (425 / 2))).take 6 =
      [(20, 385 / 2), (20, 385 / 2), (20, 385 / 2), (45, 193), (70, 193), (230, 385 / 2)] := by
  rw [meanderCmds_eq]
  have h2 : round (425 / 2 : ℚ) = 213 := by
    rw [round_eq]
    norm_num
  simp [shownPositions, shownTarget, fmtXYE, G1, Cmd.shownArg, Num.shown, startX, startY, endX]
  norm_num [round_192_5, h2]

/-- C13 on the bed `X_MAX_POS = 250`, `Y_MAX_POS = 212.5`, whose derived lengths
are all positive.  The travel move and the first pass print `startY = 192.5`
with two decimals (`%-.2f`), the two lead-in moves print it with none
(`%-2.f`), and no integer equals 192.5.  So in the emitted text the path runs
(20, 192.5), (45, 193), (70, 193), (230, 192.5): the first lead-in move and the
first pass change both X and Y. -/
theorem meander_lead_in_leaves_start_height :
    (0 < lengthCSx_short 250 ∧ 0 < lengthCSy (425 / 2)) ∧
    (∃ t l1 l2 z : Cmd,
      (meanderCmds 250 (425 / 2))[0]? = some t ∧ (meanderCmds 250 (425 / 2))[3]? = some l1 ∧
      (meanderCmds 250 (425 / 2))[4]? = some l2 ∧ (meanderCmds 250 (425 / 2))[5]? = some z ∧
      t.field 'Y' = some (.f none 2 (startY (425 / 2))) ∧
      l1.field 'Y' = some (.f (some 2) 0 (startY (425 / 2))) ∧
      l2.field 'Y' = some (.f (some 2) 0 (startY (425 / 2))) ∧
      z.field 'Y' = some (.f none 2 (startY (425 / 2)))) ∧
    startY (425 / 2) = 385 / 2 ∧ (∀ n : ℤ, (n : ℚ) ≠ startY (425 / 2)) ∧
    (shownPositions (0, 0) (meanderCmds 250 (425 / 2))).take 6 =
      [(20, 385 / 2), (20, 385 / 2), (20, 385 / 2), (45, 193), (70, 193), (230, 385 / 2)] ∧
    ¬ oneAxis (20, 385 / 2) (45, 193) ∧ ¬ oneAxis (70, 193) (230, 385 / 2) ∧
    ¬ List.Chain' oneAxis ((shownPositions (0, 0) (meanderCmds 250 (425 / 2))).drop 2) := by
  have htake := shownPositions_212_5
  have hno : ¬ oneAxis ((20 : ℚ), (385 / 2 : ℚ)) (45, 193) := by
    unfold oneAxis
    norm_num
  refine ⟨⟨by norm_num [lengthCSx_short, lengthCSx, endX, startX, width],
      by norm_num [lengthCSy, startY, width]⟩, ?_, by norm_num [startY], ?_, htake, hno, ?_, ?_⟩
  · refine ⟨[G1, ⟨'X', .f (some 2) 0 startX⟩, ⟨'Y', .f none 2 (startY (425 / 2))⟩],
      [G1, ⟨'X', .lit 45 0⟩, ⟨'Y', .f (some 2) 0 (startY (425 / 2))⟩, ⟨'E', .lit 25 1⟩],
      [G1, ⟨'X', .lit 70 0⟩, ⟨'Y', .f (some 2) 0 (startY (425 / 2))⟩, ⟨'E', .lit 25 1⟩],
      fmtXYE (endX 250) (startY (425 / 2)) (extrX_short 250), ?_, ?_, ?_, ?_, ?_, ?_, ?_, ?_⟩
    · rw [meanderCmds_eq]
      rfl
    · rw [meanderCmds_eq]
      rfl
    · rw [meanderCmds_eq]
      rfl
    · rw [meanderCmds_eq]
      rfl
    · simp [G1, Cmd.field]
    · simp [G1, Cmd.field]
    · simp [G1, Cmd.field]
    · simp [fmtXYE, G1, Cmd.field]
  · intro n hn
    have h2 : (2 * n : ℤ) = 385 := by
      have : (2 : ℚ) * n = 385 := by
        rw [hn]
        norm_num [startY]
      exact_mod_cast this
    omega
  · unfold oneAxis
    norm_num
  · intro hchain
    have hsplit : (shownPositions (0, 0) (meanderCmds 250 (425 / 2))).drop 2 =
        (20, 385 / 2) :: (45, 193) ::
          (shownPositions (0, 0) (meanderCmds 250 (425 / 2))).drop 4 := by
      have h4 : ((shownPositions (0, 0) (meanderCmds 250 (425 / 2))).take 6).drop 2 =
          [(20, 385 / 2), (45, 193), (70, 193), (230, 385 / 2)] := by
        rw [htake]
        rfl
      have hlen : (shownPositions (0, 0) (meanderCmds 250 (425 / 2))).length = 17 := by
        rw [meanderCmds_eq]
        simp [shownPositions]
      apply List.ext_getElem?
      intro i
      rcases i with _ | _ | i
      · have := congrArg (fun l => l[0]?) h4
        simpa [List.getElem?_drop, List.getElem?_take] using this
      · have := congrArg (fun l => l[1]?) h4
        simpa [List.getElem?_drop, List.getElem?_take] using this
      · simp [List.getElem?_drop]
        congr 1
        omega
    rw [hsplit] at hchain
    exact hno (List.chain'_cons.mp hchain).1

end FirstLayCal
